import Mathlib

/-
Verification of the field codec of DataHarmonizer (`src/lib/utils/fields.js`).

The JavaScript source is shallowly embedded: the dynamically typed scalar
values that flow through the codec become the inductive `JSValue`; keyed
records become association lists kept in insertion order; exceptions become
`Except JsError`; `console.warn` output is collected in a second result
component.  The external collaborators imported from `datatypes.js`
(the `Datatypes` coercion engine, the JSON-schema date helpers) and the
host primitive backing `isNaN` are abstracted into the `ExternalEnv`
structure, mirroring the interface the source consumes.
-/

set_option maxHeartbeats 1000000

/-- Decidable equality on `Except`, needed to evaluate conversion results
on closed inputs. -/
instance {ε α : Type} [DecidableEq ε] [DecidableEq α] : DecidableEq (Except ε α)
  | .ok a, .ok b =>
    if h : a = b then .isTrue (congrArg Except.ok h)
    else .isFalse (fun hh => h (Except.ok.inj hh))
  | .error a, .error b =>
    if h : a = b then .isTrue (congrArg Except.error h)
    else .isFalse (fun hh => h (Except.error.inj hh))
  | .ok _, .error _ => .isFalse (fun hh => Except.noConfusion hh)
  | .error _, .ok _ => .isFalse (fun hh => Except.noConfusion hh)

namespace DataHarmonizer

/-- Scalar JavaScript values that flow through the field codec: strings,
numbers (modelled as integers), booleans, `Date` instances (a valid date
carries its timestamp, an invalid one carries `none`), `null` and
`undefined`. -/
inductive JSValue where
  | str (s : String)
  | num (n : Int)
  | bool (b : Bool)
  | date (t : Option Int)
  | null
  | undefined
deriving DecidableEq

/-- Values stored in a keyed record: either a scalar or an array of scalars
(the shape produced for a multivalued field). -/
inductive ObjValue where
  | scalar (v : JSValue)
  | array (vs : List JSValue)
deriving DecidableEq

/-- Model of JavaScript string trimming on the character list: leading and
trailing whitespace is removed. -/
def trimChars (cs : List Char) : List Char :=
  (((cs.dropWhile Char.isWhitespace).reverse).dropWhile Char.isWhitespace).reverse

/-- Model of `String.prototype.trim` (restricted to ASCII whitespace). -/
def jsTrim (s : String) : String :=
  String.mk (trimChars s.data)

/-- Helper of `splitJs`: walks the characters, cutting at each separator. -/
def splitCharAux (sep : Char) : List Char → List Char → List (List Char)
  | [], acc => [acc.reverse]
  | c :: cs, acc =>
    if c = sep then acc.reverse :: splitCharAux sep cs []
    else splitCharAux sep cs (c :: acc)

/-- Model of `String.prototype.split` with a one-character separator (the
multivalue codec splits on the trimmed delimiter, the single semicolon, and
the case normalizer splits on the single space). -/
def splitJs (sep : Char) (s : String) : List String :=
  (splitCharAux sep s.data []).map String.mk

/-- Model of `Array.prototype.join`. -/
def joinJs (sep : String) : List String → String
  | [] => ""
  | [s] => s
  | s :: rest => s ++ sep ++ joinJs sep rest

/-- JavaScript truthiness for the scalar values of this model (`Date`
objects are always truthy, even invalid ones). -/
def jsTruthy : JSValue → Bool
  | .str s => s != ""
  | .num n => n != 0
  | .bool b => b
  | .date _ => true
  | .null => false
  | .undefined => false

/-- Test of `date-fns`/`isDate`: whether the value is a `Date` instance
(valid or not). -/
def jsIsDate : JSValue → Bool
  | .date _ => true
  | _ => false

/-- Format-string configuration from which a `Datatypes` engine is built
(`{dateFormat, datetimeFormat, timeFormat}`). -/
structure Formats where
  dateFormat : String
  datetimeFormat : String
  timeFormat : String
deriving DecidableEq

/-- External collaborators of the field codec: the `Datatypes` coercion
engine of `datatypes.js` (a fresh instance is built per call from the three
format strings, so its `parse` and `stringify` take the formats as first
argument; `parse` returns `JSValue.undefined` for unparseable input), the
JSON-schema date helpers, the date/time datatype predicate, and the two
host primitives the codec relies on (numeric coercion of a string, host
rendering of a `Date`). -/
structure ExternalEnv where
  dtParse : Formats → String → String → JSValue
  dtStringify : Formats → ObjValue → String → String
  stringifyJsonSchemaDate : JSValue → String → String
  parseJsonSchemaDate : String → String → JSValue
  parseJsonDate : String → JSValue
  datatypeIsDateOrTime : String → Bool
  stringToNumber : String → Option Int
  dateToString : Option Int → String

/-- Model of the JavaScript `String(v)` conversion for scalar values (the
host rendering of a `Date` is abstracted into the environment). -/
def jsToString (env : ExternalEnv) : JSValue → String
  | .str s => s
  | .num n => toString n
  | .bool b => if b then "true" else "false"
  | .date t => env.dateToString t
  | .null => "null"
  | .undefined => "undefined"

/-- Model of the JavaScript `Number(v)` coercion on scalar values, `none`
standing for `NaN`; the string case is the abstracted host primitive. -/
def jsToNumber (env : ExternalEnv) : JSValue → Option Int
  | .str s => env.stringToNumber s
  | .num n => some n
  | .bool b => some (if b then 1 else 0)
  | .date t => t
  | .null => some 0
  | .undefined => none

/-- Model of the JavaScript global `isNaN` applied to a scalar value. -/
def jsIsNaN (env : ExternalEnv) (v : JSValue) : Bool :=
  (jsToNumber env v).isNone

/-- Schema entry (see `data.js` of the repository): one positional field.
`structured_pattern` is `none` when the property is absent on the field;
otherwise it holds the optional `syntax` string of the pattern. -/
structure Field where
  name : String
  datatype : String := ""
  multivalued : Bool := false
  title : String := ""
  structured_pattern : Option (Option String) := none
deriving DecidableEq

/-- Errors a conversion can throw: the parse failure raised under
`THROW_ERROR` (the thrown message interpolates the offending raw value and
the datatype, carried here structurally) and the TypeError the runtime
raises when a property of `undefined` is dereferenced. -/
inductive JsError where
  | parseError (originalValue : String) (datatype : String)
  | typeError (message : String)
deriving DecidableEq

/-- Parse failure behaviors of `dataArrayToObject`. -/
inductive ParseFailureBehavior where
  | KEEP_ORIGINAL
  | REMOVE
  | THROW_ERROR
deriving DecidableEq

/-- Date representation modes (`DATE_OBJECT`, `JSON_SCHEMA_FORMAT`,
`INPUT_FORMAT`). -/
inductive DateFormatMode where
  | DATE_OBJECT
  | JSON_SCHEMA_FORMAT
  | INPUT_FORMAT
deriving DecidableEq

/-- Module constant `MULTIVALUED_DELIMITER`. -/
def MULTIVALUED_DELIMITER : String := "; "

/-- Title-casing of one word, `w[0].toUpperCase() + w.substr(1).toLowerCase()`;
on the empty word JavaScript dereferences `undefined` and throws.  Case
conversion is modelled on ASCII letters. -/
def titleCaseWord (w : String) : Except JsError String :=
  match w.data with
  | [] => .error (.typeError "Cannot read properties of undefined (reading toUpperCase)")
  | c :: cs => .ok (String.mk (c.toUpper :: cs.map Char.toLower))

/-- Word-wise mapping of `titleCaseWord` with exception propagation. -/
def titleCaseWords : List String → Except JsError (List String)
  | [] => .ok []
  | w :: ws =>
    match titleCaseWord w with
    | .error e => .error e
    | .ok w2 =>
      match titleCaseWords ws with
      | .error e => .error e
      | .ok ws2 => .ok (w2 :: ws2)

/-- Case normalizer (`changeCase`).  The source dereferences
`field.structured_pattern.syntax` unconditionally, so a field without a
`structured_pattern` makes JavaScript throw a TypeError. -/
def changeCase (val : String) (field : Field) : Except JsError String :=
  match field.structured_pattern with
  | none => .error (.typeError "Cannot read properties of undefined (reading pattern)")
  | some stx =>
    if stx = some "{lower_case}" then .ok val.toLower
    else if stx = some "{UPPER_CASE}" then .ok val.toUpper
    else if stx = some "{Title_Case}" then
      match titleCaseWords (splitJs ' ' val) with
      | .error e => .error e
      | .ok ws => .ok (joinJs " " ws)
    else .ok val

/-- Decoder of the multivalue codec (`parseMultivaluedValue`): an empty
string yields no values; otherwise split on the trimmed delimiter (the
single semicolon), trim each token and drop empty tokens. -/
def parseMultivaluedValue (value : String) : List String :=
  if value = "" then []
  else ((splitJs ';' value).map jsTrim).filter (fun v => v != "")

/-- Encoder of the multivalue codec (`formatMultivaluedValue`): `none`
models an absent (`null`/`undefined`) argument and yields the empty
string; otherwise falsy entries are dropped, string entries are trimmed,
other entries go through `String(v)`, and the results are joined with the
two-character delimiter. -/
def formatMultivaluedValue (env : ExternalEnv) : Option (List JSValue) → String
  | none => ""
  | some values =>
    joinJs MULTIVALUED_DELIMITER
      ((values.filter jsTruthy).map (fun v =>
        match v with
        | .str s => jsTrim s
        | _ => jsToString env v))

/-- Options of `dataArrayToObject`, with the defaults of the source. -/
structure DataArrayToObjectOptions where
  parseFailureBehavior : ParseFailureBehavior := .KEEP_ORIGINAL
  dateBehavior : DateFormatMode := .DATE_OBJECT
  dateFormat : String := "yyyy-MM-dd"
  datetimeFormat : String := "yyyy-MM-dd HH:mm"
  timeFormat : String := "HH:mm"
deriving DecidableEq

/-- Format strings with which `dataArrayToObject` builds its `Datatypes`
engine. -/
def DataArrayToObjectOptions.formats (o : DataArrayToObjectOptions) : Formats :=
  ⟨o.dateFormat, o.datetimeFormat, o.timeFormat⟩

/-- Options of `dataObjectToArray`, with the defaults of the source. -/
structure DataObjectToArrayOptions where
  serializedDateFormat : DateFormatMode := .DATE_OBJECT
  dateFormat : String := "yyyy-MM-dd"
  datetimeFormat : String := "yyyy-MM-dd HH:mm"
  timeFormat : String := "HH:mm"
deriving DecidableEq

/-- Format strings with which `dataObjectToArray` builds its `Datatypes`
engine. -/
def DataObjectToArrayOptions.formats (o : DataObjectToArrayOptions) : Formats :=
  ⟨o.dateFormat, o.datetimeFormat, o.timeFormat⟩

/-- Date representation policy applied after a successful parse
(`formatDatesAndTimes`): non-dates pass through untouched. -/
def formatDatesAndTimes (env : ExternalEnv) (dts : Formats) (db : DateFormatMode)
    (dateObject : JSValue) (datatype : String) : JSValue :=
  if ! jsIsDate dateObject then dateObject
  else
    match db with
    | .DATE_OBJECT => dateObject
    | .INPUT_FORMAT => .str (env.dtStringify dts (.scalar dateObject) datatype)
    | .JSON_SCHEMA_FORMAT => .str (env.stringifyJsonSchemaDate dateObject datatype)

/-- Per-value coercion (`getParsedValue`): parse through the engine, apply
the date policy on success, otherwise follow `parseFailureBehavior`. -/
def getParsedValue (env : ExternalEnv) (dts : Formats) (pfb : ParseFailureBehavior)
    (db : DateFormatMode) (originalValue : String) (datatype : String) :
    Except JsError JSValue :=
  let parsedValue := env.dtParse dts originalValue datatype
  if parsedValue ≠ JSValue.undefined then
    .ok (formatDatesAndTimes env dts db parsedValue datatype)
  else
    match pfb with
    | .KEEP_ORIGINAL => .ok (.str originalValue)
    | .THROW_ERROR => .error (.parseError originalValue datatype)
    | .REMOVE => .ok .undefined

/-- Per-token coercion of the multivalued branch,
`split.map((cellElement) => getParsedValue(cellElement, field.datatype))`,
with exception propagation. -/
def parseTokenList (env : ExternalEnv) (dts : Formats) (pfb : ParseFailureBehavior)
    (db : DateFormatMode) (datatype : String) :
    List String → Except JsError (List JSValue)
  | [] => .ok []
  | t :: ts =>
    match getParsedValue env dts pfb db t datatype with
    | .error e => .error e
    | .ok v =>
      match parseTokenList env dts pfb db datatype ts with
      | .error e => .error e
      | .ok vs => .ok (v :: vs)

/-- Model of the JavaScript property assignment `dataObject[key] = v` on an
association list kept in insertion order: an existing binding is replaced
in place, otherwise the new binding is appended. -/
def objSet (obj : List (String × ObjValue)) (k : String) (v : ObjValue) :
    List (String × ObjValue) :=
  if obj.any (fun p => p.1 == k) then
    obj.map (fun p => if p.1 == k then (k, v) else p)
  else obj ++ [(k, v)]

/-- Body of the `forEach` of `dataArrayToObject` for one non-skipped cell
and its (defined) field: multivalued cells are decoded, coerced token-wise
and kept only when some token survives; single values are coerced and the
key is always set. -/
def processCell (env : ExternalEnv) (dts : Formats) (pfb : ParseFailureBehavior)
    (db : DateFormatMode) (field : Field) (cell : String)
    (dataObject : List (String × ObjValue)) :
    Except JsError (List (String × ObjValue)) :=
  if field.multivalued then
    match parseTokenList env dts pfb db field.datatype (parseMultivaluedValue cell) with
    | .error e => .error e
    | .ok split =>
      let parsed := split.filter (fun v => v ≠ JSValue.undefined)
      if parsed.length > 0 then .ok (objSet dataObject field.name (.array parsed))
      else .ok dataObject
  else
    match getParsedValue env dts pfb db cell field.datatype with
    | .error e => .error e
    | .ok v => .ok (objSet dataObject field.name (.scalar v))

/-- Pairs each cell with its position, as `forEach((cell, idx) => ...)`
exposes it. -/
def indexedFrom (i : Nat) : List α → List (Nat × α)
  | [] => []
  | a :: l => (i, a) :: indexedFrom (i + 1) l

/-- Loop of `dataArrayToObject` over the indexed cells.  A cell that is
absent or the empty string is skipped; a non-empty cell whose index has no
field raises the TypeError of dereferencing `undefined`. -/
def arrayToObjectLoop (env : ExternalEnv) (dts : Formats) (pfb : ParseFailureBehavior)
    (db : DateFormatMode) (fields : List Field) :
    List (Nat × Option String) → List (String × ObjValue) →
    Except JsError (List (String × ObjValue))
  | [], dataObject => .ok dataObject
  | (idx, cell) :: rest, dataObject =>
    match cell with
    | none => arrayToObjectLoop env dts pfb db fields rest dataObject
    | some c =>
      if c = "" then arrayToObjectLoop env dts pfb db fields rest dataObject
      else
        match fields[idx]? with
        | none => .error (.typeError "Cannot read properties of undefined (reading multivalued)")
        | some field =>
          match processCell env dts pfb db field c dataObject with
          | .error e => .error e
          | .ok obj => arrayToObjectLoop env dts pfb db fields rest obj

/-- Conversion of a positional record to the keyed representation
(`dataArrayToObject`). -/
def dataArrayToObject (env : ExternalEnv) (dataArray : List (Option String))
    (fields : List Field) (options : DataArrayToObjectOptions) :
    Except JsError (List (String × ObjValue)) :=
  arrayToObjectLoop env options.formats options.parseFailureBehavior
    options.dateBehavior fields (indexedFrom 0 dataArray) []

/-- Model of `fields.findIndex((f) => f.name === key)` fused with the
subsequent `fields[fieldIdx]` read: the first index whose field satisfies
the predicate together with that field, or `none` where JavaScript yields
`-1`. -/
def jsFindIndexElem (p : Field → Bool) : List Field → Option (Nat × Field)
  | [] => none
  | f :: fs =>
    if p f then some (0, f)
    else (jsFindIndexElem p fs).map (fun x => (x.1 + 1, x.2))

/-- Reinterpretation of a serialized date string per `serializedDateFormat`
(the `parseDateString` closure of `dataObjectToArray`). -/
def parseDateString (env : ExternalEnv) (dts : Formats) (sdf : DateFormatMode)
    (dateString : String) (datatype : String) : JSValue :=
  match sdf with
  | .DATE_OBJECT => env.parseJsonDate dateString
  | .INPUT_FORMAT => env.dtParse dts dateString datatype
  | .JSON_SCHEMA_FORMAT => env.parseJsonSchemaDate dateString datatype

/-- Stringification of one working value (the `getStringifiedValue` closure
of `dataObjectToArray`): a textual value of a date/time field is first
reinterpreted per `serializedDateFormat` and replaces the working value
when the result is not `NaN`; the final step always goes through the
coercion engine built from the per-call format strings. -/
def getStringifiedValue (env : ExternalEnv) (dts : Formats) (sdf : DateFormatMode)
    (originalValue : ObjValue) (datatype : String) : String :=
  let workingValue :=
    match originalValue with
    | .scalar (.str s) =>
      if env.datatypeIsDateOrTime datatype then
        let parsed := parseDateString env dts sdf s datatype
        if jsIsNaN env parsed then originalValue else .scalar parsed
      else originalValue
    | _ => originalValue
  env.dtStringify dts workingValue datatype

/-- Cell written by `dataObjectToArray` for one matched field: a
multivalued field whose value is an array is stringified element-wise and
encoded through the multivalue codec (`field.multivalued &&
Array.isArray(value)`); everything else is stringified as a single
value. -/
def objectToArrayCell (env : ExternalEnv) (dts : Formats) (sdf : DateFormatMode)
    (field : Field) (value : ObjValue) : String :=
  match field.multivalued, value with
  | true, .array vs =>
    formatMultivaluedValue env (some (vs.map (fun v =>
      JSValue.str (getStringifiedValue env dts sdf (.scalar v) field.datatype))))
  | _, _ => getStringifiedValue env dts sdf value field.datatype

/-- Loop of `dataObjectToArray` over `Object.entries(dataObject)`: returns
the positional array together with the list of warnings emitted through
`console.warn`. -/
def objectToArrayLoop (env : ExternalEnv) (dts : Formats) (sdf : DateFormatMode)
    (fields : List Field) :
    List (String × ObjValue) → List String → List String × List String
  | [], dataArray => (dataArray, [])
  | (key, value) :: rest, dataArray =>
    match jsFindIndexElem (fun f => f.name == key) fields with
    | none =>
      let r := objectToArrayLoop env dts sdf fields rest dataArray
      (r.1, ("Could not map data object key " ++ key) :: r.2)
    | some (fieldIdx, field) =>
      objectToArrayLoop env dts sdf fields rest
        (dataArray.set fieldIdx (objectToArrayCell env dts sdf field value))

/-- Conversion of a keyed record back to the positional representation
(`dataObjectToArray`); the second component collects the warnings. -/
def dataObjectToArray (env : ExternalEnv) (dataObject : List (String × ObjValue))
    (fields : List Field) (options : DataObjectToArrayOptions) :
    List String × List String :=
  objectToArrayLoop env options.formats options.serializedDateFormat fields
    dataObject (List.replicate fields.length "")

/-- Concrete environment used to evaluate the theorems on closed inputs:
an integer datatype that parses only the literal used in the witnesses, a
date datatype with one known canonical string, and everything else kept
trivial. -/
def env0 : ExternalEnv where
  dtParse := fun _ s dt =>
    if dt = "integer" then (if s = "42" then .num 42 else .undefined)
    else if dt = "date" then (if s = "D1" then .date (some 100) else .undefined)
    else .str s
  dtStringify := fun _ v _ =>
    match v with
    | .scalar (.str s) => s
    | .scalar (.num n) => toString n
    | .scalar (.bool b) => if b then "true" else "false"
    | .scalar (.date (some t)) => if t = 100 then "D1" else toString t
    | .scalar (.date none) => "Invalid Date"
    | .scalar .null => "null"
    | .scalar .undefined => "undefined"
    | .array _ => ""
  stringifyJsonSchemaDate := fun _ _ => ""
  parseJsonSchemaDate := fun _ _ => .date none
  parseJsonDate := fun _ => .date none
  datatypeIsDateOrTime := fun dt => dt == "date"
  stringToNumber := fun _ => none
  dateToString := fun _ => "Date"

/-! ### Lemmas about the keyed-record assignment `objSet` -/

theorem objSet_mem_self (obj : List (String × ObjValue)) (k : String) (v w : ObjValue) :
    (k, w) ∈ objSet obj k v ↔ w = v := by
  rw [objSet]
  by_cases h : obj.any (fun p => p.1 == k)
  · rw [if_pos h]
    simp only [List.mem_map]
    constructor
    · rintro ⟨p, hp, hpe⟩
      by_cases hk : p.1 == k
      · rw [if_pos hk] at hpe
        exact (Prod.mk.injEq _ _ _ _ ▸ hpe).2.symm
      · rw [if_neg hk] at hpe
        exact absurd (beq_iff_eq.mpr (congrArg Prod.fst hpe)) hk
    · intro hw
      subst hw
      rcases List.any_eq_true.mp h with ⟨p, hp, hk⟩
      exact ⟨p, hp, by rw [if_pos hk]⟩
  · rw [if_neg h]
    simp only [List.mem_append, List.mem_singleton]
    constructor
    · rintro (hmem | hkv)
      · exact absurd (List.any_eq_true.mpr ⟨(k, w), hmem, by simp⟩) h
      · exact (Prod.mk.injEq _ _ _ _ ▸ hkv).2
    · intro hw; subst hw; exact Or.inr rfl

theorem objSet_mem_ne (obj : List (String × ObjValue)) (k : String) (v : ObjValue)
    (k2 : String) (w : ObjValue) (hne : k2 ≠ k) :
    ((k2, w) ∈ objSet obj k v ↔ (k2, w) ∈ obj) := by
  rw [objSet]
  by_cases h : obj.any (fun p => p.1 == k)
  · rw [if_pos h]
    simp only [List.mem_map]
    constructor
    · rintro ⟨p, hp, hpe⟩
      by_cases hk : p.1 == k
      · rw [if_pos hk] at hpe
        exact absurd (congrArg Prod.fst hpe).symm hne
      · rw [if_neg hk] at hpe
        exact hpe ▸ hp
    · intro hmem
      refine ⟨(k2, w), hmem, ?_⟩
      rw [if_neg (by simpa using hne)]
  · rw [if_neg h]
    simp only [List.mem_append, List.mem_singleton]
    constructor
    · rintro (hmem | hkv)
      · exact hmem
      · exact absurd (congrArg Prod.fst hkv) hne
    · exact Or.inl

/-! ### Lemmas about the per-value coercion `getParsedValue` -/

theorem getParsedValue_parse_defined (env : ExternalEnv) (dts : Formats)
    (pfb : ParseFailureBehavior) (db : DateFormatMode) (s dt : String)
    (h : env.dtParse dts s dt ≠ .undefined) :
    getParsedValue env dts pfb db s dt =
      .ok (formatDatesAndTimes env dts db (env.dtParse dts s dt) dt) := by
  unfold getParsedValue
  simp [h]

theorem getParsedValue_keep (env : ExternalEnv) (dts : Formats) (db : DateFormatMode)
    (s dt : String) (h : env.dtParse dts s dt = .undefined) :
    getParsedValue env dts .KEEP_ORIGINAL db s dt = .ok (.str s) := by
  unfold getParsedValue
  simp [h]

theorem getParsedValue_remove (env : ExternalEnv) (dts : Formats) (db : DateFormatMode)
    (s dt : String) (h : env.dtParse dts s dt = .undefined) :
    getParsedValue env dts .REMOVE db s dt = .ok .undefined := by
  unfold getParsedValue
  simp [h]

theorem getParsedValue_throw (env : ExternalEnv) (dts : Formats) (db : DateFormatMode)
    (s dt : String) (h : env.dtParse dts s dt = .undefined) :
    getParsedValue env dts .THROW_ERROR db s dt = .error (.parseError s dt) := by
  unfold getParsedValue
  simp [h]

theorem getParsedValue_error_iff (env : ExternalEnv) (dts : Formats)
    (pfb : ParseFailureBehavior) (db : DateFormatMode) (s dt : String) (e : JsError) :
    getParsedValue env dts pfb db s dt = .error e ↔
      (pfb = .THROW_ERROR ∧ env.dtParse dts s dt = .undefined ∧ e = .parseError s dt) := by
  unfold getParsedValue
  by_cases h : env.dtParse dts s dt = JSValue.undefined
  · cases pfb <;> simp [h, eq_comm]
  · simp [h]

theorem getParsedValue_ok_exists (env : ExternalEnv) (dts : Formats)
    (pfb : ParseFailureBehavior) (db : DateFormatMode) (s dt : String)
    (h : pfb ≠ .THROW_ERROR) :
    ∃ v, getParsedValue env dts pfb db s dt = .ok v := by
  cases hgp : getParsedValue env dts pfb db s dt with
  | ok v => exact ⟨v, rfl⟩
  | error e => exact absurd ((getParsedValue_error_iff env dts pfb db s dt e).mp hgp).1 h

theorem getParsedValue_throw_ok (env : ExternalEnv) (dts : Formats) (db : DateFormatMode)
    (s dt : String) (v : JSValue)
    (h : getParsedValue env dts .THROW_ERROR db s dt = .ok v) :
    env.dtParse dts s dt ≠ .undefined := by
  intro hu
  rw [getParsedValue_throw env dts db s dt hu] at h
  exact Except.noConfusion h

/-! ### Lemmas about the token-wise coercion `parseTokenList` -/

theorem parseTokenList_error_exists (env : ExternalEnv) (dts : Formats)
    (pfb : ParseFailureBehavior) (db : DateFormatMode) (dt : String)
    (ts : List String) (e : JsError)
    (h : parseTokenList env dts pfb db dt ts = .error e) :
    ∃ t ∈ ts, getParsedValue env dts pfb db t dt = .error e := by
  induction ts with
  | nil => exact absurd h (by simp [parseTokenList])
  | cons t ts ih =>
    rw [parseTokenList] at h
    cases hgp : getParsedValue env dts pfb db t dt with
    | error e2 =>
      rw [hgp] at h
      exact ⟨t, List.mem_cons_self t ts, hgp.trans (congrArg Except.error (Except.error.inj h))⟩
    | ok v =>
      rw [hgp] at h
      cases hrec : parseTokenList env dts pfb db dt ts with
      | error e2 =>
        rw [hrec] at h
        rcases ih (hrec.trans (congrArg Except.error (Except.error.inj h))) with ⟨t2, ht2, hgp2⟩
        exact ⟨t2, List.mem_cons_of_mem t ht2, hgp2⟩
      | ok vs => rw [hrec] at h; exact Except.noConfusion h

theorem parseTokenList_ok_no_error (env : ExternalEnv) (dts : Formats)
    (pfb : ParseFailureBehavior) (db : DateFormatMode) (dt : String)
    (ts : List String) (vs : List JSValue)
    (h : parseTokenList env dts pfb db dt ts = .ok vs) :
    ∀ t ∈ ts, ∀ e, getParsedValue env dts pfb db t dt ≠ .error e := by
  induction ts generalizing vs with
  | nil => intro t ht; exact absurd ht (List.not_mem_nil t)
  | cons t ts ih =>
    rw [parseTokenList] at h
    cases hgp : getParsedValue env dts pfb db t dt with
    | error e2 => rw [hgp] at h; exact Except.noConfusion h
    | ok v =>
      rw [hgp] at h
      cases hrec : parseTokenList env dts pfb db dt ts with
      | error e2 => rw [hrec] at h; exact Except.noConfusion h
      | ok vs2 =>
        intro t2 ht2 e
        rcases List.mem_cons.mp ht2 with h2 | h2
        · subst h2; rw [hgp]; exact fun hh => Except.noConfusion hh
        · exact ih vs2 hrec t2 h2 e

theorem parseTokenList_ok_of_forall (env : ExternalEnv) (dts : Formats)
    (pfb : ParseFailureBehavior) (db : DateFormatMode) (dt : String)
    (ts : List String)
    (h : ∀ t ∈ ts, ∃ v, getParsedValue env dts pfb db t dt = .ok v) :
    ∃ vs, parseTokenList env dts pfb db dt ts = .ok vs := by
  induction ts with
  | nil => exact ⟨[], rfl⟩
  | cons t ts ih =>
    rcases h t (List.mem_cons_self t ts) with ⟨v, hv⟩
    rcases ih (fun t2 ht2 => h t2 (List.mem_cons_of_mem t ht2)) with ⟨vs, hvs⟩
    exact ⟨v :: vs, by rw [parseTokenList, hv, hvs]⟩

/-! ### Lemmas about `indexedFrom` -/

theorem indexedFrom_append (i : Nat) (l₁ l₂ : List α) :
    indexedFrom i (l₁ ++ l₂) = indexedFrom i l₁ ++ indexedFrom (i + l₁.length) l₂ := by
  induction l₁ generalizing i with
  | nil => simp [indexedFrom]
  | cons a l ih =>
    simp only [List.cons_append, indexedFrom, List.length_cons, List.append_eq, ih (i + 1)]
    rw [show i + (l.length + 1) = i + 1 + l.length from by omega]

theorem indexedFrom_mem (i : Nat) (l : List α) (j : Nat) (a : α)
    (h : (j, a) ∈ indexedFrom i l) : ∃ k, j = i + k ∧ l[k]? = some a := by
  induction l generalizing i with
  | nil => exact absurd h (List.not_mem_nil _)
  | cons b l ih =>
    rw [indexedFrom] at h
    rcases List.mem_cons.mp h with h1 | h1
    · refine ⟨0, ?_, ?_⟩
      · simpa using congrArg Prod.fst h1
      · simpa using (congrArg Prod.snd h1).symm
    · rcases ih (i + 1) h1 with ⟨k, hk, hget⟩
      exact ⟨k + 1, by omega, by simpa using hget⟩

theorem indexedFrom_decomp (l : List α) (j : Nat) (a : α) (h : l[j]? = some a) :
    indexedFrom 0 l =
      indexedFrom 0 (l.take j) ++ (j, a) :: indexedFrom (j + 1) (l.drop (j + 1)) := by
  have hlt : j < l.length := by
    by_contra hge
    rw [List.getElem?_eq_none (by omega)] at h
    exact Option.noConfusion h
  have hsplit : l = l.take j ++ l.drop j := (List.take_append_drop j l).symm
  have hdrop : l.drop j = a :: l.drop (j + 1) := by
    have := List.drop_eq_getElem_cons hlt
    rwa [(List.getElem?_eq_some.mp h).2] at this
  calc indexedFrom 0 l
      = indexedFrom 0 (l.take j ++ l.drop j) := by rw [← hsplit]
    _ = indexedFrom 0 (l.take j) ++ indexedFrom (0 + (l.take j).length) (l.drop j) :=
        indexedFrom_append 0 _ _
    _ = indexedFrom 0 (l.take j) ++ (j, a) :: indexedFrom (j + 1) (l.drop (j + 1)) := by
        rw [hdrop, List.length_take, Nat.min_eq_left (by omega)]
        simp [indexedFrom]

/-! ### Lemmas about `arrayToObjectLoop` -/

theorem objSet_keys (obj : List (String × ObjValue)) (k0 k : String) (v w : ObjValue)
    (h : (k, w) ∈ objSet obj k0 v) : (k, w) ∈ obj ∨ k = k0 := by
  by_cases hk : k = k0
  · exact Or.inr hk
  · exact Or.inl ((objSet_mem_ne obj k0 v k w hk).mp h)

theorem processCell_preserve (env : ExternalEnv) (dts : Formats)
    (pfb : ParseFailureBehavior) (db : DateFormatMode) (field : Field) (c : String)
    (obj0 obj1 : List (String × ObjValue)) (k : String) (hname : k ≠ field.name)
    (h : processCell env dts pfb db field c obj0 = .ok obj1) :
    ∀ w, ((k, w) ∈ obj1 ↔ (k, w) ∈ obj0) := by
  intro w
  rw [processCell] at h
  by_cases hmv : field.multivalued
  · rw [if_pos hmv] at h
    cases hptl : parseTokenList env dts pfb db field.datatype (parseMultivaluedValue c) with
    | error e => rw [hptl] at h; exact Except.noConfusion h
    | ok split =>
      rw [hptl] at h
      simp only at h
      by_cases hlen : (split.filter (fun v => v ≠ JSValue.undefined)).length > 0
      · rw [if_pos hlen] at h
        rw [← Except.ok.inj h]
        exact objSet_mem_ne obj0 field.name _ k w hname
      · rw [if_neg hlen] at h
        rw [← Except.ok.inj h]
  · rw [if_neg hmv] at h
    cases hgp : getParsedValue env dts pfb db c field.datatype with
    | error e => rw [hgp] at h; exact Except.noConfusion h
    | ok v =>
      rw [hgp] at h
      rw [← Except.ok.inj h]
      exact objSet_mem_ne obj0 field.name _ k w hname

theorem processCell_keys (env : ExternalEnv) (dts : Formats)
    (pfb : ParseFailureBehavior) (db : DateFormatMode) (field : Field) (c : String)
    (obj0 obj1 : List (String × ObjValue)) (k : String) (w : ObjValue)
    (h : processCell env dts pfb db field c obj0 = .ok obj1)
    (hmem : (k, w) ∈ obj1) : (k, w) ∈ obj0 ∨ k = field.name := by
  by_cases hk : k = field.name
  · exact Or.inr hk
  · exact Or.inl ((processCell_preserve env dts pfb db field c obj0 obj1 k hk h w).mp hmem)

theorem arrayToObjectLoop_append_ok (env : ExternalEnv) (dts : Formats)
    (pfb : ParseFailureBehavior) (db : DateFormatMode) (fields : List Field)
    (L₁ L₂ : List (Nat × Option String)) (obj0 obj1 : List (String × ObjValue))
    (h : arrayToObjectLoop env dts pfb db fields L₁ obj0 = .ok obj1) :
    arrayToObjectLoop env dts pfb db fields (L₁ ++ L₂) obj0 =
      arrayToObjectLoop env dts pfb db fields L₂ obj1 := by
  induction L₁ generalizing obj0 with
  | nil => rw [arrayToObjectLoop] at h; rw [← Except.ok.inj h]; rfl
  | cons p L ih =>
    obtain ⟨idx, cell⟩ := p
    cases cell with
    | none =>
      rw [arrayToObjectLoop] at h
      rw [List.cons_append, arrayToObjectLoop]
      exact ih obj0 h
    | some c =>
      rw [arrayToObjectLoop] at h
      rw [List.cons_append, arrayToObjectLoop]
      by_cases hc : c = ""
      · rw [if_pos hc] at h ⊢; exact ih obj0 h
      · rw [if_neg hc] at h ⊢
        cases hf : fields[idx]? with
        | none => rw [hf] at h; exact Except.noConfusion h
        | some field =>
          rw [hf] at h
          simp only at h ⊢
          cases hpc : processCell env dts pfb db field c obj0 with
          | error e => rw [hpc] at h; exact Except.noConfusion h
          | ok objn => rw [hpc] at h; simp only at h ⊢; exact ih objn h

theorem arrayToObjectLoop_append_error (env : ExternalEnv) (dts : Formats)
    (pfb : ParseFailureBehavior) (db : DateFormatMode) (fields : List Field)
    (L₁ L₂ : List (Nat × Option String)) (obj0 : List (String × ObjValue)) (e : JsError)
    (h : arrayToObjectLoop env dts pfb db fields L₁ obj0 = .error e) :
    arrayToObjectLoop env dts pfb db fields (L₁ ++ L₂) obj0 = .error e := by
  induction L₁ generalizing obj0 with
  | nil => rw [arrayToObjectLoop] at h; exact Except.noConfusion h
  | cons p L ih =>
    obtain ⟨idx, cell⟩ := p
    cases cell with
    | none =>
      rw [arrayToObjectLoop] at h
      rw [List.cons_append, arrayToObjectLoop]
      exact ih obj0 h
    | some c =>
      rw [arrayToObjectLoop] at h
      rw [List.cons_append, arrayToObjectLoop]
      by_cases hc : c = ""
      · rw [if_pos hc] at h ⊢; exact ih obj0 h
      · rw [if_neg hc] at h ⊢
        cases hf : fields[idx]? with
        | none => rw [hf] at h; exact h
        | some field =>
          rw [hf] at h
          simp only at h ⊢
          cases hpc : processCell env dts pfb db field c obj0 with
          | error e2 => rw [hpc] at h; simp only at h ⊢; exact h
          | ok objn => rw [hpc] at h; simp only at h ⊢; exact ih objn h

theorem arrayToObjectLoop_ok_split (env : ExternalEnv) (dts : Formats)
    (pfb : ParseFailureBehavior) (db : DateFormatMode) (fields : List Field)
    (L₁ L₂ : List (Nat × Option String)) (obj0 obj : List (String × ObjValue))
    (h : arrayToObjectLoop env dts pfb db fields (L₁ ++ L₂) obj0 = .ok obj) :
    ∃ obj1, arrayToObjectLoop env dts pfb db fields L₁ obj0 = .ok obj1 ∧
      arrayToObjectLoop env dts pfb db fields L₂ obj1 = .ok obj := by
  cases h1 : arrayToObjectLoop env dts pfb db fields L₁ obj0 with
  | error e =>
    rw [arrayToObjectLoop_append_error env dts pfb db fields L₁ L₂ obj0 e h1] at h
    exact Except.noConfusion h
  | ok obj1 =>
    rw [arrayToObjectLoop_append_ok env dts pfb db fields L₁ L₂ obj0 obj1 h1] at h
    exact ⟨obj1, rfl, h⟩

theorem arrayToObjectLoop_preserve (env : ExternalEnv) (dts : Formats)
    (pfb : ParseFailureBehavior) (db : DateFormatMode) (fields : List Field)
    (k : String) (L : List (Nat × Option String)) (obj0 obj : List (String × ObjValue))
    (hk : ∀ p ∈ L, ∀ f, fields[(p : Nat × Option String).1]? = some f → f.name ≠ k)
    (h : arrayToObjectLoop env dts pfb db fields L obj0 = .ok obj) :
    ∀ w, ((k, w) ∈ obj ↔ (k, w) ∈ obj0) := by
  induction L generalizing obj0 with
  | nil => rw [arrayToObjectLoop] at h; rw [← Except.ok.inj h]; exact fun w => Iff.rfl
  | cons p L ih =>
    obtain ⟨idx, cell⟩ := p
    have hkL : ∀ p ∈ L, ∀ f, fields[(p : Nat × Option String).1]? = some f → f.name ≠ k :=
      fun p hp => hk p (List.mem_cons_of_mem _ hp)
    cases cell with
    | none =>
      rw [arrayToObjectLoop] at h
      exact ih obj0 hkL h
    | some c =>
      rw [arrayToObjectLoop] at h
      by_cases hc : c = ""
      · rw [if_pos hc] at h; exact ih obj0 hkL h
      · rw [if_neg hc] at h
        cases hf : fields[idx]? with
        | none => rw [hf] at h; exact Except.noConfusion h
        | some field =>
          rw [hf] at h
          simp only at h
          cases hpc : processCell env dts pfb db field c obj0 with
          | error e => rw [hpc] at h; exact Except.noConfusion h
          | ok objn =>
            rw [hpc] at h
            simp only at h
            intro w
            have hname : k ≠ field.name :=
              fun hkf => (hk (idx, some c) (List.mem_cons_self _ _) field hf) hkf.symm
            exact (ih objn hkL h w).trans
              (processCell_preserve env dts pfb db field c obj0 objn k hname hpc w)

theorem arrayToObjectLoop_keys (env : ExternalEnv) (dts : Formats)
    (pfb : ParseFailureBehavior) (db : DateFormatMode) (fields : List Field)
    (L : List (Nat × Option String)) (obj0 obj : List (String × ObjValue))
    (h : arrayToObjectLoop env dts pfb db fields L obj0 = .ok obj) :
    ∀ k w, (k, w) ∈ obj → (∃ w2, (k, w2) ∈ obj0) ∨
      ∃ j s f, (j, some s) ∈ L ∧ s ≠ "" ∧ fields[j]? = some f ∧ f.name = k := by
  induction L generalizing obj0 with
  | nil =>
    rw [arrayToObjectLoop] at h
    rw [← Except.ok.inj h]
    exact fun k w hm => Or.inl ⟨w, hm⟩
  | cons p L ih =>
    obtain ⟨idx, cell⟩ := p
    cases cell with
    | none =>
      rw [arrayToObjectLoop] at h
      intro k w hm
      rcases ih obj0 h k w hm with h1 | ⟨j, s, f, hjs, hs, hf, hn⟩
      · exact Or.inl h1
      · exact Or.inr ⟨j, s, f, List.mem_cons_of_mem _ hjs, hs, hf, hn⟩
    | some c =>
      rw [arrayToObjectLoop] at h
      by_cases hc : c = ""
      · rw [if_pos hc] at h
        intro k w hm
        rcases ih obj0 h k w hm with h1 | ⟨j, s, f, hjs, hs, hf, hn⟩
        · exact Or.inl h1
        · exact Or.inr ⟨j, s, f, List.mem_cons_of_mem _ hjs, hs, hf, hn⟩
      · rw [if_neg hc] at h
        cases hf : fields[idx]? with
        | none => rw [hf] at h; exact absurd h (fun hh => Except.noConfusion hh)
        | some field =>
          rw [hf] at h
          simp only at h
          cases hpc : processCell env dts pfb db field c obj0 with
          | error e => rw [hpc] at h; exact Except.noConfusion h
          | ok objn =>
            rw [hpc] at h
            simp only at h
            intro k w hm
            rcases ih objn h k w hm with ⟨w2, h1⟩ | ⟨j, s, f, hjs, hs, hf2, hn⟩
            · rcases processCell_keys env dts pfb db field c obj0 objn k w2 hpc h1 with
                h2 | h2
              · exact Or.inl ⟨w2, h2⟩
              · exact Or.inr ⟨idx, c, field, List.mem_cons_self _ _, hc, hf, h2.symm⟩
            · exact Or.inr ⟨j, s, f, List.mem_cons_of_mem _ hjs, hs, hf2, hn⟩

theorem fields_name_inj (fields : List Field) (hnd : (fields.map Field.name).Nodup)
    (i j : Nat) (field g : Field) (hf : fields[i]? = some field) (hg : fields[j]? = some g)
    (hname : field.name = g.name) : i = j := by
  have hi : (fields.map Field.name)[i]? = some field.name := by
    rw [List.getElem?_map, hf]; rfl
  have hj : (fields.map Field.name)[j]? = some g.name := by
    rw [List.getElem?_map, hg]; rfl
  have hij : (fields.map Field.name)[i]? = (fields.map Field.name)[j]? := by
    rw [hi, hj, hname]
  have hlt : i < (fields.map Field.name).length := by
    rw [List.length_map]
    by_contra hge
    rw [List.getElem?_eq_none (by omega : fields.length ≤ i)] at hf
    exact Option.noConfusion hf
  exact List.getElem?_inj hlt hnd hij

/-- Central decomposition: if the conversion succeeded and slot `i` holds a
non-empty cell for `field`, then the final bindings of `field.name` are
exactly those produced by processing that one cell against an accumulator
in which `field.name` is unbound. -/
theorem arrayToObjectLoop_binding (env : ExternalEnv) (dts : Formats)
    (pfb : ParseFailureBehavior) (db : DateFormatMode)
    (dataArray : List (Option String)) (fields : List Field) (i : Nat) (field : Field)
    (s : String) (obj : List (String × ObjValue))
    (hnd : (fields.map Field.name).Nodup)
    (hf : fields[i]? = some field)
    (hc : dataArray[i]? = some (some s)) (hs : s ≠ "")
    (hok : arrayToObjectLoop env dts pfb db fields (indexedFrom 0 dataArray) [] = .ok obj) :
    ∃ objB objA,
      processCell env dts pfb db field s objB = .ok objA ∧
      (∀ w, (field.name, w) ∉ objB) ∧
      (∀ w, ((field.name, w) ∈ obj ↔ (field.name, w) ∈ objA)) := by
  rw [indexedFrom_decomp dataArray i (some s) hc] at hok
  rcases arrayToObjectLoop_ok_split env dts pfb db fields _ _ _ _ hok with
    ⟨objB, hPrefix, hRest⟩
  rw [arrayToObjectLoop] at hRest
  rw [if_neg hs, hf] at hRest
  simp only at hRest
  cases hpc : processCell env dts pfb db field s objB with
  | error e => rw [hpc] at hRest; exact absurd hRest (fun hh => Except.noConfusion hh)
  | ok objA =>
    rw [hpc] at hRest
    refine ⟨objB, objA, hpc, ?_, ?_⟩
    · intro w hmem
      rcases arrayToObjectLoop_keys env dts pfb db fields _ _ _ hPrefix field.name w hmem with
        ⟨w2, h2⟩ | ⟨j, s2, f, hjs, hs2, hf2, hn⟩
      · exact List.not_mem_nil _ h2
      · rcases indexedFrom_mem 0 _ j (some s2) hjs with ⟨kk, hkk, hget⟩
        have hklt : kk < i := by
          have : kk < (dataArray.take i).length := by
            by_contra hge
            rw [List.getElem?_eq_none (by omega)] at hget
            exact Option.noConfusion hget
          rw [List.length_take] at this
          omega
        have : j = i := fields_name_inj fields hnd j i f field hf2 hf hn
        omega
    · intro w
      refine arrayToObjectLoop_preserve env dts pfb db fields field.name _ objA obj ?_ hRest w
      intro p hp f hfp
      obtain ⟨j, c⟩ := p
      rcases indexedFrom_mem (i + 1) _ j c hp with ⟨kk, hkk, hget⟩
      intro hn
      have : j = i := fields_name_inj fields hnd j i f field hfp hf hn
      omega

/-- Specialization of the binding lemma to a non-multivalued field: the
key is bound exactly to the scalar coercion result. -/
theorem dataArrayToObject_binding_single (env : ExternalEnv)
    (dataArray : List (Option String)) (fields : List Field)
    (o : DataArrayToObjectOptions) (i : Nat) (field : Field) (s : String)
    (obj : List (String × ObjValue)) (v : JSValue)
    (hnd : (fields.map Field.name).Nodup)
    (hok : dataArrayToObject env dataArray fields o = .ok obj)
    (hf : fields[i]? = some field) (hmv : field.multivalued = false)
    (hc : dataArray[i]? = some (some s)) (hs : s ≠ "")
    (hv : getParsedValue env o.formats o.parseFailureBehavior o.dateBehavior s
      field.datatype = .ok v) :
    ∀ w, ((field.name, w) ∈ obj ↔ w = .scalar v) := by
  rw [dataArrayToObject] at hok
  rcases arrayToObjectLoop_binding env o.formats o.parseFailureBehavior o.dateBehavior
    dataArray fields i field s obj hnd hf hc hs hok with ⟨objB, objA, hpc, _, hbind⟩
  rw [processCell, if_neg (by rw [hmv]; exact Bool.false_ne_true), hv] at hpc
  intro w
  rw [hbind w, ← Except.ok.inj hpc]
  exact objSet_mem_self objB field.name (.scalar v) w

/-- Specialization of the binding lemma to a multivalued field: the key is
bound to the filtered token coercions exactly when some token survived. -/
theorem dataArrayToObject_binding_multi (env : ExternalEnv)
    (dataArray : List (Option String)) (fields : List Field)
    (o : DataArrayToObjectOptions) (i : Nat) (field : Field) (s : String)
    (obj : List (String × ObjValue)) (vals : List JSValue)
    (hnd : (fields.map Field.name).Nodup)
    (hok : dataArrayToObject env dataArray fields o = .ok obj)
    (hf : fields[i]? = some field) (hmv : field.multivalued = true)
    (hc : dataArray[i]? = some (some s)) (hs : s ≠ "")
    (hvals : parseTokenList env o.formats o.parseFailureBehavior o.dateBehavior
      field.datatype (parseMultivaluedValue s) = .ok vals) :
    (vals.filter (fun v => v ≠ JSValue.undefined) ≠ [] →
       ∀ w, ((field.name, w) ∈ obj ↔ w = .array (vals.filter (fun v => v ≠ JSValue.undefined))))
    ∧ (vals.filter (fun v => v ≠ JSValue.undefined) = [] →
       ∀ w, (field.name, w) ∉ obj) := by
  rw [dataArrayToObject] at hok
  rcases arrayToObjectLoop_binding env o.formats o.parseFailureBehavior o.dateBehavior
    dataArray fields i field s obj hnd hf hc hs hok with ⟨objB, objA, hpc, hfree, hbind⟩
  rw [processCell, if_pos (by rw [hmv]), hvals] at hpc
  simp only at hpc
  constructor
  · intro hne w
    have hlen : (vals.filter (fun v => v ≠ JSValue.undefined)).length > 0 :=
      List.length_pos.mpr hne
    rw [if_pos hlen] at hpc
    rw [hbind w, ← Except.ok.inj hpc]
    exact objSet_mem_self objB field.name _ w
  · intro hnil w
    have hlen : ¬ (vals.filter (fun v => v ≠ JSValue.undefined)).length > 0 := by
      rw [hnil]; simp
    rw [if_neg hlen] at hpc
    have hBA : objB = objA := Except.ok.inj hpc
    intro hmem
    exact hfree w (hBA ▸ (hbind w).mp hmem)

theorem indexedFrom_mem_of (l : List α) (j : Nat) (a : α) (h : l[j]? = some a) :
    (j, a) ∈ indexedFrom 0 l := by
  rw [indexedFrom_decomp l j a h]
  exact List.mem_append_right _ (List.mem_cons_self _ _)

/-- A field whose slot is absent, `null` or the empty string contributes no
key at all to a successful conversion (with pairwise distinct names). -/
theorem dataArrayToObject_no_key (env : ExternalEnv) (dataArray : List (Option String))
    (fields : List Field) (o : DataArrayToObjectOptions) (j : Nat) (g : Field)
    (obj : List (String × ObjValue))
    (hnd : (fields.map Field.name).Nodup)
    (hok : dataArrayToObject env dataArray fields o = .ok obj)
    (hg : fields[j]? = some g)
    (hempty : dataArray[j]? = none ∨ dataArray[j]? = some none ∨
      dataArray[j]? = some (some "")) :
    ∀ w, (g.name, w) ∉ obj := by
  intro w hmem
  rw [dataArrayToObject] at hok
  rcases arrayToObjectLoop_keys env o.formats o.parseFailureBehavior o.dateBehavior fields
      _ _ obj hok g.name w hmem with ⟨w2, h2⟩ | ⟨j2, s, f, hjs, hs, hf, hn⟩
  · exact List.not_mem_nil _ h2
  · rcases indexedFrom_mem 0 _ j2 (some s) hjs with ⟨kk, hkk, hget⟩
    have hj2 : j2 = kk := by omega
    have hjj : j2 = j := fields_name_inj fields hnd j2 j f g hf hg hn
    subst hjj
    rw [← hj2] at hget
    rcases hempty with he | he | he <;> rw [he] at hget
    · exact Option.noConfusion hget
    · exact Option.noConfusion (Option.some.inj hget)
    · exact hs (Option.some.inj (Option.some.inj hget)).symm

theorem processCell_ok_of (env : ExternalEnv) (dts : Formats)
    (pfb : ParseFailureBehavior) (db : DateFormatMode) (field : Field) (c : String)
    (obj0 : List (String × ObjValue)) (hpfb : pfb ≠ .THROW_ERROR) :
    ∃ obj1, processCell env dts pfb db field c obj0 = .ok obj1 := by
  rw [processCell]
  by_cases hmv : field.multivalued
  · rw [if_pos hmv]
    rcases parseTokenList_ok_of_forall env dts pfb db field.datatype
        (parseMultivaluedValue c)
        (fun t _ => getParsedValue_ok_exists env dts pfb db t field.datatype hpfb) with
      ⟨vs, hvs⟩
    rw [hvs]
    simp only
    by_cases hlen : (vs.filter (fun v => v ≠ JSValue.undefined)).length > 0
    · rw [if_pos hlen]; exact ⟨_, rfl⟩
    · rw [if_neg hlen]; exact ⟨_, rfl⟩
  · rw [if_neg hmv]
    rcases getParsedValue_ok_exists env dts pfb db c field.datatype hpfb with ⟨v, hv⟩
    rw [hv]
    exact ⟨_, rfl⟩

theorem arrayToObjectLoop_ok_of (env : ExternalEnv) (dts : Formats)
    (pfb : ParseFailureBehavior) (db : DateFormatMode) (fields : List Field)
    (L : List (Nat × Option String)) (obj0 : List (String × ObjValue))
    (hrange : ∀ p ∈ L, (p : Nat × Option String).1 < fields.length)
    (hpfb : pfb ≠ .THROW_ERROR) :
    ∃ obj, arrayToObjectLoop env dts pfb db fields L obj0 = .ok obj := by
  induction L generalizing obj0 with
  | nil => exact ⟨obj0, rfl⟩
  | cons p L ih =>
    obtain ⟨idx, cell⟩ := p
    have hrangeL : ∀ p ∈ L, (p : Nat × Option String).1 < fields.length :=
      fun p hp => hrange p (List.mem_cons_of_mem _ hp)
    cases cell with
    | none => rw [arrayToObjectLoop]; exact ih obj0 hrangeL
    | some c =>
      rw [arrayToObjectLoop]
      by_cases hc : c = ""
      · rw [if_pos hc]; exact ih obj0 hrangeL
      · rw [if_neg hc]
        have hidx : idx < fields.length := hrange (idx, some c) (List.mem_cons_self _ _)
        cases hf : fields[idx]? with
        | none =>
          rw [List.getElem?_eq_getElem hidx] at hf
          exact Option.noConfusion hf
        | some field =>
          simp only
          rcases processCell_ok_of env dts pfb db field c obj0 hpfb with ⟨obj1, hpc⟩
          rw [hpc]
          exact ih obj1 hrangeL

theorem processCell_error (env : ExternalEnv) (dts : Formats)
    (pfb : ParseFailureBehavior) (db : DateFormatMode) (field : Field) (c : String)
    (obj0 : List (String × ObjValue)) (e : JsError)
    (h : processCell env dts pfb db field c obj0 = .error e) :
    ∃ v, e = .parseError v field.datatype ∧ env.dtParse dts v field.datatype = .undefined ∧
      pfb = .THROW_ERROR := by
  rw [processCell] at h
  by_cases hmv : field.multivalued
  · rw [if_pos hmv] at h
    cases hptl : parseTokenList env dts pfb db field.datatype (parseMultivaluedValue c) with
    | error e2 =>
      rw [hptl] at h
      rcases parseTokenList_error_exists env dts pfb db field.datatype _ e2 hptl with
        ⟨t, _, hgp⟩
      rcases (getParsedValue_error_iff env dts pfb db t field.datatype e2).mp hgp with
        ⟨hthrow, hu, he⟩
      exact ⟨t, (Except.error.inj h) ▸ he, hu, hthrow⟩
    | ok vs =>
      rw [hptl] at h
      simp only at h
      by_cases hlen : (vs.filter (fun v => v ≠ JSValue.undefined)).length > 0
      · rw [if_pos hlen] at h; exact Except.noConfusion h
      · rw [if_neg hlen] at h; exact Except.noConfusion h
  · rw [if_neg hmv] at h
    cases hgp : getParsedValue env dts pfb db c field.datatype with
    | error e2 =>
      rw [hgp] at h
      rcases (getParsedValue_error_iff env dts pfb db c field.datatype e2).mp hgp with
        ⟨hthrow, hu, he⟩
      exact ⟨c, (Except.error.inj h) ▸ he, hu, hthrow⟩
    | ok v => rw [hgp] at h; exact Except.noConfusion h

theorem arrayToObjectLoop_error_shape (env : ExternalEnv) (dts : Formats)
    (pfb : ParseFailureBehavior) (db : DateFormatMode) (fields : List Field)
    (L : List (Nat × Option String)) (obj0 : List (String × ObjValue)) (e : JsError)
    (hrange : ∀ p ∈ L, (p : Nat × Option String).1 < fields.length)
    (h : arrayToObjectLoop env dts pfb db fields L obj0 = .error e) :
    ∃ v f, f ∈ fields ∧ e = .parseError v f.datatype ∧
      env.dtParse dts v f.datatype = .undefined ∧ pfb = .THROW_ERROR := by
  induction L generalizing obj0 with
  | nil => rw [arrayToObjectLoop] at h; exact Except.noConfusion h
  | cons p L ih =>
    obtain ⟨idx, cell⟩ := p
    have hrangeL : ∀ p ∈ L, (p : Nat × Option String).1 < fields.length :=
      fun p hp => hrange p (List.mem_cons_of_mem _ hp)
    cases cell with
    | none => rw [arrayToObjectLoop] at h; exact ih obj0 hrangeL h
    | some c =>
      rw [arrayToObjectLoop] at h
      by_cases hc : c = ""
      · rw [if_pos hc] at h; exact ih obj0 hrangeL h
      · rw [if_neg hc] at h
        have hidx : idx < fields.length := hrange (idx, some c) (List.mem_cons_self _ _)
        cases hf : fields[idx]? with
        | none =>
          rw [List.getElem?_eq_getElem hidx] at hf
          exact Option.noConfusion hf
        | some field =>
          rw [hf] at h
          simp only at h
          cases hpc : processCell env dts pfb db field c obj0 with
          | error e2 =>
            rw [hpc] at h
            rcases processCell_error env dts pfb db field c obj0 e2 hpc with
              ⟨v, he, hu, hthrow⟩
            have hmem : field ∈ fields := by
              have := List.getElem?_eq_getElem hidx
              exact (List.mem_iff_getElem?).mpr ⟨idx, hf⟩
            exact ⟨v, field, hmem, (Except.error.inj h) ▸ he, hu, hthrow⟩
          | ok objn =>
            rw [hpc] at h
            simp only at h
            exact ih objn hrangeL h

theorem processCell_ok_parses (env : ExternalEnv) (dts : Formats) (db : DateFormatMode)
    (field : Field) (c : String) (obj0 obj1 : List (String × ObjValue))
    (h : processCell env dts .THROW_ERROR db field c obj0 = .ok obj1) :
    (field.multivalued = false → env.dtParse dts c field.datatype ≠ .undefined) ∧
    (field.multivalued = true →
      ∀ t ∈ parseMultivaluedValue c, env.dtParse dts t field.datatype ≠ .undefined) := by
  rw [processCell] at h
  by_cases hmv : field.multivalued
  · rw [if_pos hmv] at h
    refine ⟨fun hmvf => absurd hmv (by rw [hmvf]; exact Bool.false_ne_true), fun _ => ?_⟩
    cases hptl : parseTokenList env dts .THROW_ERROR db field.datatype
        (parseMultivaluedValue c) with
    | error e => rw [hptl] at h; exact Except.noConfusion h
    | ok vs =>
      intro t ht hu
      exact parseTokenList_ok_no_error env dts .THROW_ERROR db field.datatype _ vs hptl t ht
        (.parseError t field.datatype)
        (getParsedValue_throw env dts db t field.datatype hu)
  · rw [if_neg hmv] at h
    refine ⟨fun _ => ?_, fun hmvt => absurd hmvt hmv⟩
    cases hgp : getParsedValue env dts .THROW_ERROR db c field.datatype with
    | error e => rw [hgp] at h; exact Except.noConfusion h
    | ok v => exact getParsedValue_throw_ok env dts db c field.datatype v hgp

theorem arrayToObjectLoop_ok_parses (env : ExternalEnv) (dts : Formats)
    (db : DateFormatMode) (fields : List Field) (L : List (Nat × Option String))
    (obj0 obj : List (String × ObjValue))
    (h : arrayToObjectLoop env dts .THROW_ERROR db fields L obj0 = .ok obj) :
    ∀ p ∈ L, ∀ s, (p : Nat × Option String).2 = some s → s ≠ "" →
      ∀ f, fields[p.1]? = some f →
        (f.multivalued = false → env.dtParse dts s f.datatype ≠ .undefined) ∧
        (f.multivalued = true →
          ∀ t ∈ parseMultivaluedValue s, env.dtParse dts t f.datatype ≠ .undefined) := by
  induction L generalizing obj0 with
  | nil => intro p hp; exact absurd hp (List.not_mem_nil p)
  | cons q L ih =>
    obtain ⟨idx, cell⟩ := q
    intro p hp s hcell hs f hf
    rcases List.mem_cons.mp hp with hph | hpt
    · subst hph
      simp only at hcell
      subst hcell
      rw [arrayToObjectLoop] at h
      rw [if_neg hs] at h
      simp only at hf
      rw [hf] at h
      simp only at h
      cases hpc : processCell env dts .THROW_ERROR db f s obj0 with
      | error e => rw [hpc] at h; exact Except.noConfusion h
      | ok objn => exact processCell_ok_parses env dts db f s obj0 objn hpc
    · cases cell with
      | none =>
        rw [arrayToObjectLoop] at h
        exact ih obj0 h p hpt s hcell hs f hf
      | some c =>
        rw [arrayToObjectLoop] at h
        by_cases hc : c = ""
        · rw [if_pos hc] at h
          exact ih obj0 h p hpt s hcell hs f hf
        · rw [if_neg hc] at h
          cases hfq : fields[idx]? with
          | none => rw [hfq] at h; exact absurd h (fun hh => Except.noConfusion hh)
          | some field =>
            rw [hfq] at h
            simp only at h
            cases hpc : processCell env dts .THROW_ERROR db field c obj0 with
            | error e =>
              rw [hpc] at h
              exact absurd h (fun hh => Except.noConfusion hh)
            | ok objn =>
              rw [hpc] at h
              exact ih objn h p hpt s hcell hs f hf

theorem arrayToObjectLoop_error_of_missing (env : ExternalEnv) (dts : Formats)
    (pfb : ParseFailureBehavior) (db : DateFormatMode) (fields : List Field)
    (L : List (Nat × Option String)) (obj0 : List (String × ObjValue))
    (hmiss : ∃ p ∈ L, ∃ s, (p : Nat × Option String).2 = some s ∧ s ≠ "" ∧
      fields[p.1]? = none) :
    ∃ e, arrayToObjectLoop env dts pfb db fields L obj0 = .error e := by
  induction L generalizing obj0 with
  | nil => rcases hmiss with ⟨p, hp, _⟩; exact absurd hp (List.not_mem_nil p)
  | cons q L ih =>
    obtain ⟨idx, cell⟩ := q
    rcases hmiss with ⟨p, hp, s, hcell, hs, hf⟩
    rcases List.mem_cons.mp hp with hph | hpt
    · subst hph
      simp only at hcell hf
      subst hcell
      rw [arrayToObjectLoop, if_neg hs, hf]
      exact ⟨_, rfl⟩
    · have hmissL : ∃ p ∈ L, ∃ s, (p : Nat × Option String).2 = some s ∧ s ≠ "" ∧
          fields[p.1]? = none := ⟨p, hpt, s, hcell, hs, hf⟩
      cases cell with
      | none => rw [arrayToObjectLoop]; exact ih obj0 hmissL
      | some c =>
        rw [arrayToObjectLoop]
        by_cases hc : c = ""
        · rw [if_pos hc]; exact ih obj0 hmissL
        · rw [if_neg hc]
          cases hfq : fields[idx]? with
          | none => exact ⟨_, rfl⟩
          | some field =>
            simp only
            cases hpc : processCell env dts pfb db field c obj0 with
            | error e => exact ⟨e, rfl⟩
            | ok objn => exact ih objn hmissL

theorem arrayToObjectLoop_error_noThrow (env : ExternalEnv) (dts : Formats)
    (pfb : ParseFailureBehavior) (db : DateFormatMode) (fields : List Field)
    (L : List (Nat × Option String)) (obj0 : List (String × ObjValue)) (e : JsError)
    (hpfb : pfb ≠ .THROW_ERROR)
    (h : arrayToObjectLoop env dts pfb db fields L obj0 = .error e) :
    e = .typeError "Cannot read properties of undefined (reading multivalued)" := by
  induction L generalizing obj0 with
  | nil => rw [arrayToObjectLoop] at h; exact Except.noConfusion h
  | cons q L ih =>
    obtain ⟨idx, cell⟩ := q
    cases cell with
    | none => rw [arrayToObjectLoop] at h; exact ih obj0 h
    | some c =>
      rw [arrayToObjectLoop] at h
      by_cases hc : c = ""
      · rw [if_pos hc] at h; exact ih obj0 h
      · rw [if_neg hc] at h
        cases hfq : fields[idx]? with
        | none =>
          rw [hfq] at h
          exact (Except.error.inj h).symm
        | some field =>
          rw [hfq] at h
          simp only at h
          cases hpc : processCell env dts pfb db field c obj0 with
          | error e2 =>
            rw [hpc] at h
            rcases processCell_error env dts pfb db field c obj0 e2 hpc with
              ⟨v, _, _, hthrow⟩
            exact absurd hthrow hpfb
          | ok objn =>
            rw [hpc] at h
            exact ih objn h

/-! ### Lemmas about `jsFindIndexElem` and `objectToArrayLoop` -/

theorem jsFindIndexElem_some (p : Field → Bool) (fields : List Field) (i : Nat) (f : Field)
    (h : jsFindIndexElem p fields = some (i, f)) : fields[i]? = some f ∧ p f = true := by
  induction fields generalizing i with
  | nil => exact Option.noConfusion h
  | cons g fs ih =>
    rw [jsFindIndexElem] at h
    by_cases hp : p g
    · rw [if_pos hp] at h
      have h1 := Option.some.inj h
      have hi : i = 0 := (congrArg Prod.fst h1).symm
      have hg : f = g := (congrArg Prod.snd h1).symm
      subst hi; subst hg
      exact ⟨List.getElem?_cons_zero, hp⟩
    · rw [if_neg hp] at h
      cases hfi : jsFindIndexElem p fs with
      | none => rw [hfi] at h; exact Option.noConfusion h
      | some x =>
        obtain ⟨i2, f2⟩ := x
        rw [hfi] at h
        have h1 := Option.some.inj h
        have hi : i = i2 + 1 := (congrArg Prod.fst h1).symm
        have hg : f = f2 := (congrArg Prod.snd h1).symm
        subst hi; subst hg
        rcases ih i2 hfi with ⟨hget, hpf⟩
        exact ⟨by simpa using hget, hpf⟩

theorem jsFindIndexElem_none (p : Field → Bool) (fields : List Field) :
    jsFindIndexElem p fields = none ↔ ∀ f ∈ fields, p f = false := by
  induction fields with
  | nil => simp [jsFindIndexElem]
  | cons g fs ih =>
    rw [jsFindIndexElem]
    by_cases hp : p g
    · rw [if_pos hp]
      constructor
      · intro h; exact Option.noConfusion h
      · intro h
        have hfalse := h g (List.mem_cons_self g fs)
        rw [hp] at hfalse
        exact Bool.noConfusion hfalse
    · rw [if_neg hp]
      cases hfi : jsFindIndexElem p fs with
      | some x =>
        constructor
        · intro h; exact Option.noConfusion h
        · intro h
          rw [ih.mpr (fun f hf => h f (List.mem_cons_of_mem g hf))] at hfi
          exact Option.noConfusion hfi
      | none =>
        constructor
        · intro _ f hf
          rcases List.mem_cons.mp hf with h1 | h1
          · subst h1; exact Bool.eq_false_iff.mpr hp
          · exact (ih.mp hfi) f h1
        · intro _; rfl

theorem jsFindIndexElem_first (fields : List Field) (i : Nat) (field : Field)
    (hnd : (fields.map Field.name).Nodup) (hf : fields[i]? = some field) :
    jsFindIndexElem (fun g => g.name == field.name) fields = some (i, field) := by
  induction fields generalizing i with
  | nil => exact Option.noConfusion hf
  | cons g fs ih =>
    rw [List.map_cons, List.nodup_cons] at hnd
    cases i with
    | zero =>
      rw [List.getElem?_cons_zero] at hf
      have hg : g = field := Option.some.inj hf
      subst hg
      rw [jsFindIndexElem, if_pos (beq_iff_eq.mpr rfl)]
    | succ i2 =>
      have hget : fs[i2]? = some field := by simpa using hf
      have hmem : field ∈ fs := by
        rcases List.getElem?_eq_some.mp hget with ⟨hlt, heq⟩
        exact heq ▸ List.getElem_mem hlt
      have hne : ¬ (g.name == field.name) = true := by
        intro hbeq
        exact hnd.1 (beq_iff_eq.mp hbeq ▸ List.mem_map_of_mem Field.name hmem)
      rw [jsFindIndexElem, if_neg hne, ih i2 hnd.2 hget]
      rfl

theorem objectToArrayLoop_length (env : ExternalEnv) (dts : Formats)
    (sdf : DateFormatMode) (fields : List Field) (entries : List (String × ObjValue))
    (arr : List String) :
    (objectToArrayLoop env dts sdf fields entries arr).1.length = arr.length := by
  induction entries generalizing arr with
  | nil => rfl
  | cons q rest ih =>
    obtain ⟨key, value⟩ := q
    rw [objectToArrayLoop]
    cases hfi : jsFindIndexElem (fun f => f.name == key) fields with
    | none => exact ih arr
    | some x =>
      obtain ⟨fieldIdx, field⟩ := x
      rw [ih]
      exact List.length_set ..

theorem objectToArrayLoop_untouched (env : ExternalEnv) (dts : Formats)
    (sdf : DateFormatMode) (fields : List Field) (entries : List (String × ObjValue))
    (arr : List String) (i : Nat) (f : Field)
    (hf : fields[i]? = some f)
    (hk : ∀ p ∈ entries, (p : String × ObjValue).1 ≠ f.name) :
    (objectToArrayLoop env dts sdf fields entries arr).1[i]? = arr[i]? := by
  induction entries generalizing arr with
  | nil => rfl
  | cons q rest ih =>
    obtain ⟨key, value⟩ := q
    have hkr : ∀ p ∈ rest, (p : String × ObjValue).1 ≠ f.name :=
      fun p hp => hk p (List.mem_cons_of_mem _ hp)
    rw [objectToArrayLoop]
    cases hfi : jsFindIndexElem (fun g => g.name == key) fields with
    | none => exact ih arr hkr
    | some x =>
      obtain ⟨fieldIdx, field⟩ := x
      rcases jsFindIndexElem_some _ fields fieldIdx field hfi with ⟨hget, hbeq⟩
      have hne : fieldIdx ≠ i := by
        intro he
        subst he
        have : field = f := Option.some.inj (hget.symm.trans hf)
        subst this
        exact hk (key, value) (List.mem_cons_self _ _) (beq_iff_eq.mp hbeq).symm
      rw [ih _ hkr, List.getElem?_set_ne hne]

theorem objectToArrayLoop_append_fst (env : ExternalEnv) (dts : Formats)
    (sdf : DateFormatMode) (fields : List Field) (E₁ E₂ : List (String × ObjValue))
    (arr : List String) :
    (objectToArrayLoop env dts sdf fields (E₁ ++ E₂) arr).1 =
      (objectToArrayLoop env dts sdf fields E₂
        (objectToArrayLoop env dts sdf fields E₁ arr).1).1 := by
  induction E₁ generalizing arr with
  | nil => rfl
  | cons q rest ih =>
    obtain ⟨key, value⟩ := q
    rw [List.cons_append, objectToArrayLoop, objectToArrayLoop]
    cases hfi : jsFindIndexElem (fun g => g.name == key) fields with
    | none => exact ih arr
    | some x =>
      obtain ⟨fieldIdx, field⟩ := x
      exact ih _

theorem objectToArrayLoop_warn (env : ExternalEnv) (dts : Formats)
    (sdf : DateFormatMode) (fields : List Field) (entries : List (String × ObjValue))
    (arr : List String) (k : String) (v : ObjValue)
    (hmem : (k, v) ∈ entries) (hnone : ∀ f ∈ fields, f.name ≠ k) :
    ("Could not map data object key " ++ k) ∈
      (objectToArrayLoop env dts sdf fields entries arr).2 := by
  induction entries generalizing arr with
  | nil => exact absurd hmem (List.not_mem_nil _)
  | cons q rest ih =>
    obtain ⟨key, value⟩ := q
    rw [objectToArrayLoop]
    rcases List.mem_cons.mp hmem with h1 | h1
    · have hkey : key = k := (congrArg Prod.fst h1).symm
      subst hkey
      rw [(jsFindIndexElem_none _ fields).mpr
        (fun f hf => Bool.eq_false_iff.mpr (fun hbeq => hnone f hf (beq_iff_eq.mp hbeq)))]
      exact List.mem_cons_self _ _
    · cases hfi : jsFindIndexElem (fun g => g.name == key) fields with
      | none => exact List.mem_cons_of_mem _ (ih arr h1)
      | some x =>
        obtain ⟨fieldIdx, field⟩ := x
        exact ih _ h1

theorem objectToArrayLoop_skip (env : ExternalEnv) (dts : Formats)
    (sdf : DateFormatMode) (fields : List Field) (E₁ E₂ : List (String × ObjValue))
    (arr : List String) (k : String) (v : ObjValue)
    (hnone : ∀ f ∈ fields, f.name ≠ k) :
    (objectToArrayLoop env dts sdf fields (E₁ ++ (k, v) :: E₂) arr).1 =
      (objectToArrayLoop env dts sdf fields (E₁ ++ E₂) arr).1 := by
  rw [objectToArrayLoop_append_fst, objectToArrayLoop_append_fst]
  rw [objectToArrayLoop]
  rw [(jsFindIndexElem_none _ fields).mpr
    (fun f hf => Bool.eq_false_iff.mpr (fun hbeq => hnone f hf (beq_iff_eq.mp hbeq)))]

theorem objectToArrayLoop_last_write (env : ExternalEnv) (dts : Formats)
    (sdf : DateFormatMode) (fields : List Field) (E₁ E₂ : List (String × ObjValue))
    (arr : List String) (i : Nat) (field : Field) (v : ObjValue)
    (hnd : (fields.map Field.name).Nodup)
    (hf : fields[i]? = some field)
    (hE₂ : ∀ p ∈ E₂, (p : String × ObjValue).1 ≠ field.name)
    (hlen : arr.length = fields.length) :
    (objectToArrayLoop env dts sdf fields (E₁ ++ (field.name, v) :: E₂) arr).1[i]? =
      some (objectToArrayCell env dts sdf field v) := by
  rw [objectToArrayLoop_append_fst, objectToArrayLoop]
  rw [jsFindIndexElem_first fields i field hnd hf]
  rw [objectToArrayLoop_untouched env dts sdf fields E₂ _ i field hf hE₂]
  have hi : i < ((objectToArrayLoop env dts sdf fields E₁ arr).1).length := by
    rw [objectToArrayLoop_length, hlen]
    rcases List.getElem?_eq_some.mp hf with ⟨hlt, _⟩
    exact hlt
  exact List.getElem?_set_eq_of_lt _ hi

/-! ### Claim theorems -/

/-- C8: in `dataObjectToArray`, a textual value of a date/time field is
first reinterpreted per `serializedDateFormat`; a valid instant replaces
the working value before the final stringify, a failed reinterpretation
(undefined or an invalid date) leaves the original text in place, and in
every case the final step is the coercion engine stringify with the
per-call formats, independent of `serializedDateFormat`. -/
theorem getStringifiedValue_datePolicy (env : ExternalEnv) (dts : Formats)
    (sdf : DateFormatMode) (s : String) (dt : String)
    (h : env.datatypeIsDateOrTime dt = true) :
    (∀ t : Int, parseDateString env dts sdf s dt = .date (some t) →
      getStringifiedValue env dts sdf (.scalar (.str s)) dt =
        env.dtStringify dts (.scalar (.date (some t))) dt)
    ∧ ((parseDateString env dts sdf s dt = .undefined ∨
        parseDateString env dts sdf s dt = .date none) →
      getStringifiedValue env dts sdf (.scalar (.str s)) dt =
        env.dtStringify dts (.scalar (.str s)) dt)
    ∧ (∀ v : ObjValue, ∃ w : ObjValue,
      getStringifiedValue env dts sdf v dt = env.dtStringify dts w dt) := by
  refine ⟨?_, ?_, fun v => ⟨_, rfl⟩⟩
  · intro t hp
    simp [getStringifiedValue, h, hp, jsIsNaN, jsToNumber]
  · intro hp
    rcases hp with hp | hp <;>
      simp [getStringifiedValue, h, hp, jsIsNaN, jsToNumber]

/-- Witness for C8 at a concrete date field and environment. -/
theorem getStringifiedValue_datePolicy_witness :
    env0.datatypeIsDateOrTime "date" = true ∧
    ((∀ t : Int, parseDateString env0 ⟨"a", "b", "c"⟩ .INPUT_FORMAT "D1" "date" =
        .date (some t) →
      getStringifiedValue env0 ⟨"a", "b", "c"⟩ .INPUT_FORMAT (.scalar (.str "D1")) "date" =
        env0.dtStringify ⟨"a", "b", "c"⟩ (.scalar (.date (some t))) "date")
    ∧ ((parseDateString env0 ⟨"a", "b", "c"⟩ .INPUT_FORMAT "D1" "date" = .undefined ∨
        parseDateString env0 ⟨"a", "b", "c"⟩ .INPUT_FORMAT "D1" "date" = .date none) →
      getStringifiedValue env0 ⟨"a", "b", "c"⟩ .INPUT_FORMAT (.scalar (.str "D1")) "date" =
        env0.dtStringify ⟨"a", "b", "c"⟩ (.scalar (.str "D1")) "date")
    ∧ (∀ v : ObjValue, ∃ w : ObjValue,
      getStringifiedValue env0 ⟨"a", "b", "c"⟩ .INPUT_FORMAT v "date" =
        env0.dtStringify ⟨"a", "b", "c"⟩ w "date")) :=
  ⟨by decide,
    getStringifiedValue_datePolicy env0 ⟨"a", "b", "c"⟩ .INPUT_FORMAT "D1" "date" (by decide)⟩

/-- C9 counterexample: `changeCase` throws (a TypeError, from dereferencing
`undefined`) on a field whose `structured_pattern` is absent, so it is not
the case that it returns the input unchanged without throwing for every
field. -/
theorem changeCase_throws_on_missing_pattern :
    changeCase "x" { name := "f" } =
      .error (.typeError "Cannot read properties of undefined (reading pattern)") := by
  rfl

/-- C9 amended: for every string and every field whose `structured_pattern`
is present, when the pattern syntax is absent or any value other than the
three recognized patterns, `changeCase` returns the input string unchanged
without throwing.  (When `structured_pattern` itself is absent the source
throws a TypeError, see the counterexample.) -/
theorem changeCase_unrecognized_id (val : String) (field : Field) (stx0 : Option String)
    (hsp : field.structured_pattern = some stx0)
    (h1 : stx0 ≠ some "{lower_case}") (h2 : stx0 ≠ some "{UPPER_CASE}")
    (h3 : stx0 ≠ some "{Title_Case}") :
    changeCase val field = .ok val := by
  rw [changeCase, hsp]
  simp only
  rw [if_neg h1, if_neg h2, if_neg h3]

/-- Witness for the amended C9 at a concrete unrecognized pattern. -/
theorem changeCase_unrecognized_id_witness :
    ({ name := "f", structured_pattern := some (some "xyz") } : Field).structured_pattern =
      some (some "xyz") ∧
    (some "xyz" : Option String) ≠ some "{lower_case}" ∧
    changeCase "Hi There" { name := "f", structured_pattern := some (some "xyz") } =
      .ok "Hi There" :=
  ⟨rfl, by decide,
    changeCase_unrecognized_id "Hi There" { name := "f", structured_pattern := some (some "xyz") }
      (some "xyz") rfl (by decide) (by decide) (by decide)⟩

/-- C5: under `REMOVE`, a non-multivalued field whose single value fails to
coerce gets its key bound to the absent value (`undefined`), while a slot
whose raw cell is absent, `null` or the empty string contributes no key at
all — the two outcomes are distinguishable in the result. -/
theorem dataArrayToObject_remove_distinguishes (env : ExternalEnv)
    (dataArray : List (Option String)) (fields : List Field)
    (o : DataArrayToObjectOptions) (i j : Nat) (field g : Field) (s : String)
    (obj : List (String × ObjValue))
    (hpfb : o.parseFailureBehavior = .REMOVE)
    (hnd : (fields.map Field.name).Nodup)
    (hok : dataArrayToObject env dataArray fields o = .ok obj)
    (hf : fields[i]? = some field) (hmv : field.multivalued = false)
    (hc : dataArray[i]? = some (some s)) (hs : s ≠ "")
    (hfail : env.dtParse o.formats s field.datatype = .undefined)
    (hg : fields[j]? = some g)
    (hj : dataArray[j]? = none ∨ dataArray[j]? = some none ∨
      dataArray[j]? = some (some "")) :
    (field.name, ObjValue.scalar JSValue.undefined) ∈ obj ∧ ∀ w, (g.name, w) ∉ obj := by
  constructor
  · have hv : getParsedValue env o.formats o.parseFailureBehavior o.dateBehavior s
        field.datatype = .ok .undefined := by
      rw [hpfb]
      exact getParsedValue_remove env o.formats o.dateBehavior s field.datatype hfail
    exact (dataArrayToObject_binding_single env dataArray fields o i field s obj .undefined
      hnd hok hf hmv hc hs hv (ObjValue.scalar JSValue.undefined)).mpr rfl
  · exact dataArrayToObject_no_key env dataArray fields o j g obj hnd hok hg hj

/-- Witness for C5: a failing integer cell keeps its key bound to the
absent value while an empty cell yields no key. -/
theorem dataArrayToObject_remove_distinguishes_witness :
    dataArrayToObject env0 [some "abc", some ""]
        [{ name := "amount", datatype := "integer" }, { name := "note", datatype := "text" }]
        { parseFailureBehavior := .REMOVE } = .ok [("amount", .scalar .undefined)] ∧
    env0.dtParse ({ parseFailureBehavior := .REMOVE } : DataArrayToObjectOptions).formats
        "abc" "integer" = .undefined ∧
    (("amount", ObjValue.scalar JSValue.undefined) ∈
        ([("amount", ObjValue.scalar JSValue.undefined)] : List (String × ObjValue)) ∧
      ∀ w, ("note", w) ∉ ([("amount", ObjValue.scalar JSValue.undefined)] : List (String × ObjValue))) :=
  ⟨by decide, by decide,
    dataArrayToObject_remove_distinguishes env0 [some "abc", some ""]
      [{ name := "amount", datatype := "integer" }, { name := "note", datatype := "text" }]
      { parseFailureBehavior := .REMOVE } 0 1
      { name := "amount", datatype := "integer" } { name := "note", datatype := "text" }
      "abc" [("amount", .scalar .undefined)]
      rfl (by decide) (by decide) (by decide) rfl (by decide) (by decide) (by decide)
      (by decide) (Or.inr (Or.inr (by decide)))⟩

/-- C6: for a multivalued field the cell is decoded into tokens, each token
is coerced independently, tokens whose coercion yields nothing are dropped,
and the key is bound to the resulting sequence exactly when that sequence
is non-empty; when every token is dropped the field gets no key at all. -/
theorem dataArrayToObject_multivalued_spec (env : ExternalEnv)
    (dataArray : List (Option String)) (fields : List Field)
    (o : DataArrayToObjectOptions) (i : Nat) (field : Field) (s : String)
    (obj : List (String × ObjValue)) (vals : List JSValue)
    (hnd : (fields.map Field.name).Nodup)
    (hok : dataArrayToObject env dataArray fields o = .ok obj)
    (hf : fields[i]? = some field) (hmv : field.multivalued = true)
    (hc : dataArray[i]? = some (some s)) (hs : s ≠ "")
    (hvals : parseTokenList env o.formats o.parseFailureBehavior o.dateBehavior
      field.datatype (parseMultivaluedValue s) = .ok vals) :
    (vals.filter (fun v => v ≠ JSValue.undefined) ≠ [] →
      ((field.name, ObjValue.array (vals.filter (fun v => v ≠ JSValue.undefined))) ∈ obj ∧
        ∀ w, (field.name, w) ∈ obj →
          w = .array (vals.filter (fun v => v ≠ JSValue.undefined))))
    ∧ (vals.filter (fun v => v ≠ JSValue.undefined) = [] →
      ∀ w, (field.name, w) ∉ obj) := by
  rcases dataArrayToObject_binding_multi env dataArray fields o i field s obj vals
    hnd hok hf hmv hc hs hvals with ⟨hset, hnone⟩
  refine ⟨fun hne => ?_, hnone⟩
  exact ⟨(hset hne _).mpr rfl, fun w hw => (hset hne w).mp hw⟩

/-- Witness for C6: of the tokens of `"42; abc"` only `"42"` coerces, so
the key is bound to the one-element sequence. -/
theorem dataArrayToObject_multivalued_spec_witness :
    dataArrayToObject env0 [some "42; abc"]
        [{ name := "amount", datatype := "integer", multivalued := true }]
        { parseFailureBehavior := .REMOVE } = .ok [("amount", .array [.num 42])] ∧
    parseTokenList env0 ({ parseFailureBehavior := .REMOVE } : DataArrayToObjectOptions).formats
        .REMOVE .DATE_OBJECT "integer" (parseMultivaluedValue "42; abc") =
      .ok [.num 42, .undefined] ∧
    (("amount", ObjValue.array [JSValue.num 42]) ∈
      ([("amount", ObjValue.array [JSValue.num 42])] : List (String × ObjValue))) :=
  ⟨by decide, by decide,
    ((dataArrayToObject_multivalued_spec env0 [some "42; abc"]
        [{ name := "amount", datatype := "integer", multivalued := true }]
        { parseFailureBehavior := .REMOVE } 0
        { name := "amount", datatype := "integer", multivalued := true }
        "42; abc" [("amount", .array [.num 42])] [.num 42, .undefined]
        (by decide) (by decide) (by decide) (by decide) (by decide) (by decide)
        (by decide)).1 (by decide)).1⟩

/-- C7: `dataObjectToArray` always returns an array of the field list
length; an entry whose key matches no field name is skipped with a
non-fatal warning (the conversion still completes, and removing the entry
does not change the array); every field with no matching key keeps its
initialized empty-string slot. -/
theorem dataObjectToArray_spec (env : ExternalEnv)
    (dataObject : List (String × ObjValue)) (fields : List Field)
    (o : DataObjectToArrayOptions) :
    (dataObjectToArray env dataObject fields o).1.length = fields.length
    ∧ (∀ (k : String) (v : ObjValue), (k, v) ∈ dataObject → (∀ f ∈ fields, f.name ≠ k) →
        ("Could not map data object key " ++ k) ∈ (dataObjectToArray env dataObject fields o).2)
    ∧ (∀ (E₁ E₂ : List (String × ObjValue)) (k : String) (v : ObjValue),
        (∀ f ∈ fields, f.name ≠ k) →
        (dataObjectToArray env (E₁ ++ (k, v) :: E₂) fields o).1 =
          (dataObjectToArray env (E₁ ++ E₂) fields o).1)
    ∧ (∀ (i : Nat) (f : Field), fields[i]? = some f →
        (∀ p ∈ dataObject, (p : String × ObjValue).1 ≠ f.name) →
        (dataObjectToArray env dataObject fields o).1[i]? = some "") := by
  refine ⟨?_, ?_, ?_, ?_⟩
  · rw [dataObjectToArray, objectToArrayLoop_length]
    exact List.length_replicate ..
  · intro k v hmem hnone
    rw [dataObjectToArray]
    exact objectToArrayLoop_warn env o.formats o.serializedDateFormat fields dataObject _
      k v hmem hnone
  · intro E₁ E₂ k v hnone
    rw [dataObjectToArray, dataObjectToArray]
    exact objectToArrayLoop_skip env o.formats o.serializedDateFormat fields E₁ E₂ _
      k v hnone
  · intro i f hf hk
    rw [dataObjectToArray]
    rw [objectToArrayLoop_untouched env o.formats o.serializedDateFormat fields dataObject
      _ i f hf hk]
    have hi : i < fields.length := (List.getElem?_eq_some.mp hf).1
    rw [List.getElem?_eq_getElem (by simpa using hi)]
    rw [List.getElem_replicate]

/-- Witness for C7 at a concrete unknown key and an unbound field. -/
theorem dataObjectToArray_spec_witness :
    ((("zzz", ObjValue.scalar (JSValue.num 1)) ∈
        ([("zzz", .scalar (.num 1))] : List (String × ObjValue))) ∧
      (∀ f ∈ ([{ name := "a", datatype := "text" }] : List Field), f.name ≠ "zzz")) ∧
    (dataObjectToArray env0 [("zzz", .scalar (.num 1))]
        [{ name := "a", datatype := "text" }] {}).1.length = 1 ∧
    ("Could not map data object key " ++ "zzz") ∈
      (dataObjectToArray env0 [("zzz", .scalar (.num 1))]
        [{ name := "a", datatype := "text" }] {}).2 ∧
    (dataObjectToArray env0 [("zzz", .scalar (.num 1))]
        [{ name := "a", datatype := "text" }] {}).1[0]? = some "" := by
  have h := dataObjectToArray_spec env0 [("zzz", .scalar (.num 1))]
    [{ name := "a", datatype := "text" }] {}
  exact ⟨⟨by decide, by decide⟩, h.1,
    h.2.1 "zzz" (.scalar (.num 1)) (by decide) (by decide),
    h.2.2.2 0 { name := "a", datatype := "text" } (by decide) (by decide)⟩

/-- C4: with all cells in range of the schema, under `THROW_ERROR` every
failure of the conversion is a parse failure carrying a raw value on which
the external parser returned `undefined` together with a schema field
datatype, and any failing per-value coercion makes the whole conversion
fail (so no record, partial or otherwise, is returned); under
`KEEP_ORIGINAL` and `REMOVE` no coercion failure ever surfaces as a thrown
error — the conversion always returns a record. -/
theorem dataArrayToObject_parseFailure_spec (env : ExternalEnv)
    (dataArray : List (Option String)) (fields : List Field)
    (o : DataArrayToObjectOptions)
    (hlen : dataArray.length ≤ fields.length) :
    (o.parseFailureBehavior = .THROW_ERROR →
      ((∀ e, dataArrayToObject env dataArray fields o = .error e →
          ∃ v dt, e = .parseError v dt ∧ env.dtParse o.formats v dt = .undefined ∧
            ∃ f ∈ fields, f.datatype = dt)
        ∧ ((∃ (i : Nat) (f : Field) (s : String),
              fields[i]? = some f ∧ dataArray[i]? = some (some s) ∧ s ≠ "" ∧
              ((f.multivalued = false ∧ env.dtParse o.formats s f.datatype = .undefined) ∨
                (f.multivalued = true ∧ ∃ t ∈ parseMultivaluedValue s,
                  env.dtParse o.formats t f.datatype = .undefined))) →
            ∃ v dt, dataArrayToObject env dataArray fields o = .error (.parseError v dt))))
    ∧ (o.parseFailureBehavior ≠ .THROW_ERROR →
        ((∀ v dt, dataArrayToObject env dataArray fields o ≠ .error (.parseError v dt))
          ∧ ∃ obj, dataArrayToObject env dataArray fields o = .ok obj)) := by
  have hrange : ∀ p ∈ indexedFrom 0 dataArray, (p : Nat × Option String).1 < fields.length := by
    intro p hp
    obtain ⟨j, c⟩ := p
    rcases indexedFrom_mem 0 dataArray j c hp with ⟨k, hk, hget⟩
    have : k < dataArray.length := (List.getElem?_eq_some.mp hget).1
    omega
  constructor
  · intro hpfb
    constructor
    · intro e he
      rw [dataArrayToObject] at he
      rcases arrayToObjectLoop_error_shape env o.formats o.parseFailureBehavior
          o.dateBehavior fields _ _ e hrange he with ⟨v, f, hfmem, hee, hu, _⟩
      exact ⟨v, f.datatype, hee, hu, f, hfmem, rfl⟩
    · rintro ⟨i, f, s, hf, hc, hs, hfail⟩
      cases hres : dataArrayToObject env dataArray fields o with
      | error e =>
        rw [dataArrayToObject] at hres
        rcases arrayToObjectLoop_error_shape env o.formats o.parseFailureBehavior
            o.dateBehavior fields _ _ e hrange hres with ⟨v, f2, _, hee, _, _⟩
        exact ⟨v, f2.datatype, by rw [hee]⟩
      | ok obj =>
        exfalso
        rw [dataArrayToObject, hpfb] at hres
        have hforall := arrayToObjectLoop_ok_parses env o.formats o.dateBehavior fields
          _ _ obj hres (i, some s) (indexedFrom_mem_of dataArray i (some s) hc) s rfl hs f hf
        rcases hfail with ⟨hmv, hu⟩ | ⟨hmv, t, ht, hu⟩
        · exact hforall.1 hmv hu
        · exact hforall.2 hmv t ht hu
  · intro hpfb
    constructor
    · intro v dt he
      rw [dataArrayToObject] at he
      have := arrayToObjectLoop_error_noThrow env o.formats o.parseFailureBehavior
        o.dateBehavior fields _ _ (.parseError v dt) hpfb he
      exact JsError.noConfusion this
    · rw [dataArrayToObject]
      exact arrayToObjectLoop_ok_of env o.formats o.parseFailureBehavior o.dateBehavior
        fields _ [] hrange hpfb

/-- Witness for C4 and its hypotheses at a failing integer cell under
`THROW_ERROR`. -/
theorem dataArrayToObject_parseFailure_spec_witness :
    (([some "abc"] : List (Option String)).length ≤
        ([{ name := "amount", datatype := "integer" }] : List Field).length) ∧
    (({ parseFailureBehavior := .THROW_ERROR } :
        DataArrayToObjectOptions).parseFailureBehavior = .THROW_ERROR) ∧
    (∃ v dt, dataArrayToObject env0 [some "abc"]
        [{ name := "amount", datatype := "integer" }]
        { parseFailureBehavior := .THROW_ERROR } = .error (.parseError v dt)) :=
  ⟨by decide, rfl,
    ((dataArrayToObject_parseFailure_spec env0 [some "abc"]
        [{ name := "amount", datatype := "integer" }]
        { parseFailureBehavior := .THROW_ERROR } (by decide)).1 rfl).2
      ⟨0, { name := "amount", datatype := "integer" }, "abc",
        by decide, by decide, by decide, Or.inl ⟨by decide, by decide⟩⟩⟩

/-- C10: a cell that is neither empty nor absent at an index with no field
makes `dataArrayToObject` fail instead of returning a keyed record; when no
parse failure can be thrown first (`parseFailureBehavior` is not
`THROW_ERROR`), the failure is exactly the TypeError of dereferencing the
missing field. -/
theorem dataArrayToObject_out_of_range (env : ExternalEnv)
    (dataArray : List (Option String)) (fields : List Field)
    (o : DataArrayToObjectOptions) (idx : Nat) (s : String)
    (hidx : fields.length ≤ idx)
    (hc : dataArray[idx]? = some (some s)) (hs : s ≠ "") :
    (∃ e, dataArrayToObject env dataArray fields o = .error e)
    ∧ (o.parseFailureBehavior ≠ .THROW_ERROR →
        dataArrayToObject env dataArray fields o =
          .error (.typeError "Cannot read properties of undefined (reading multivalued)")) := by
  have hmiss : ∃ p ∈ indexedFrom 0 dataArray,
      ∃ s2, (p : Nat × Option String).2 = some s2 ∧ s2 ≠ "" ∧ fields[p.1]? = none :=
    ⟨(idx, some s), indexedFrom_mem_of dataArray idx (some s) hc, s, rfl, hs,
      List.getElem?_eq_none hidx⟩
  obtain ⟨e, he⟩ := arrayToObjectLoop_error_of_missing env o.formats o.parseFailureBehavior
    o.dateBehavior fields _ [] hmiss
  constructor
  · exact ⟨e, by rw [dataArrayToObject]; exact he⟩
  · intro hpfb
    have hshape := arrayToObjectLoop_error_noThrow env o.formats o.parseFailureBehavior
      o.dateBehavior fields _ _ e hpfb he
    rw [dataArrayToObject, he, hshape]

/-- Witness for C10: a second non-empty cell against a one-field schema
produces the TypeError. -/
theorem dataArrayToObject_out_of_range_witness :
    (([{ name := "amount", datatype := "integer" }] : List Field).length ≤ 1) ∧
    (([some "42", some "x"] : List (Option String))[1]? = some (some "x")) ∧
    ((∃ e, dataArrayToObject env0 [some "42", some "x"]
        [{ name := "amount", datatype := "integer" }] {} = .error e)
      ∧ (({} : DataArrayToObjectOptions).parseFailureBehavior ≠ .THROW_ERROR →
          dataArrayToObject env0 [some "42", some "x"]
            [{ name := "amount", datatype := "integer" }] {} =
            .error (.typeError "Cannot read properties of undefined (reading multivalued)"))) :=
  ⟨by decide, by decide,
    dataArrayToObject_out_of_range env0 [some "42", some "x"]
      [{ name := "amount", datatype := "integer" }] {} 1 "x"
      (by decide) (by decide) (by decide)⟩

/-! ### Lemmas about the string plumbing of the multivalue codec -/

theorem string_eq_empty_iff (s : String) : s = "" ↔ s.data = [] := by
  constructor
  · intro h; exact congrArg String.data h
  · intro h
    cases s with
    | mk data =>
      have h2 : data = [] := h
      subst h2
      rfl

theorem splitCharAux_nosep (sep : Char) (cs : List Char)
    (h : ∀ c ∈ cs, c ≠ sep) :
    ∀ (rest acc : List Char),
      splitCharAux sep (cs ++ rest) acc = splitCharAux sep rest (cs.reverse ++ acc) := by
  induction cs with
  | nil => intro rest acc; simp
  | cons c cs ih =>
    intro rest acc
    rw [List.cons_append, splitCharAux,
      if_neg (h c (List.mem_cons_self c cs)),
      ih (fun c2 hc2 => h c2 (List.mem_cons_of_mem c hc2)) rest (c :: acc)]
    simp

theorem splitCharAux_nosep_nil (sep : Char) (cs : List Char)
    (h : ∀ c ∈ cs, c ≠ sep) (acc : List Char) :
    splitCharAux sep cs acc = [acc.reverse ++ cs] := by
  have := splitCharAux_nosep sep cs h [] acc
  rw [List.append_nil] at this
  rw [this, splitCharAux]
  simp

theorem joinJs_cons_data (u : String) (us : List String) :
    (joinJs "; " (String.mk (' ' :: u.data) :: us)).data =
      ' ' :: (joinJs "; " (u :: us)).data := by
  cases us with
  | nil => rfl
  | cons w ws =>
    show (String.mk (' ' :: u.data) ++ "; " ++ joinJs "; " (w :: ws)).data = _
    rw [String.data_append, String.data_append]
    rfl

theorem splitCharAux_joinJs (es : List String) (e : String) (acc : List Char)
    (hE : ∀ c ∈ e.data, c ≠ ';')
    (hES : ∀ u ∈ es, ∀ c ∈ u.data, c ≠ ';') :
    splitCharAux ';' (joinJs "; " (e :: es)).data acc =
      (acc.reverse ++ e.data) :: es.map (fun u => ' ' :: u.data) := by
  induction es generalizing e acc with
  | nil => exact splitCharAux_nosep_nil ';' e.data hE acc
  | cons u us ih =>
    have hdata : (joinJs "; " (e :: u :: us)).data =
        e.data ++ (';' :: ' ' :: (joinJs "; " (u :: us)).data) := by
      show (e ++ "; " ++ joinJs "; " (u :: us)).data = _
      rw [String.data_append, String.data_append, List.append_assoc]
      rfl
    rw [hdata, splitCharAux_nosep ';' e.data hE _ acc, splitCharAux, if_pos rfl]
    rw [List.reverse_append, List.reverse_reverse]
    have hstep : ' ' :: (joinJs "; " (u :: us)).data =
        (joinJs "; " (String.mk (' ' :: u.data) :: us)).data :=
      (joinJs_cons_data u us).symm
    rw [hstep, ih (String.mk (' ' :: u.data)) []
      (by
        intro c hc
        rcases List.mem_cons.mp hc with h1 | h1
        · subst h1; decide
        · exact hES u (List.mem_cons_self u us) c h1)
      (fun w hw => hES w (List.mem_cons_of_mem u hw))]
    rfl

theorem trimChars_cons_space (cs : List Char) :
    trimChars (' ' :: cs) = trimChars cs := by
  rw [trimChars, trimChars, List.dropWhile_cons, if_pos (by decide)]

theorem jsTrim_mk_cons_space (u : String) :
    jsTrim (String.mk (' ' :: u.data)) = jsTrim u := by
  rw [jsTrim, jsTrim]
  exact congrArg String.mk (trimChars_cons_space u.data)

theorem dropWhile_idem (p : α → Bool) (l : List α) :
    (l.dropWhile p).dropWhile p = l.dropWhile p := by
  induction l with
  | nil => rfl
  | cons a l ih =>
    rw [List.dropWhile_cons]
    by_cases h : p a
    · rw [if_pos h]; exact ih
    · rw [if_neg h, List.dropWhile_cons, if_neg h]

theorem dropWhile_eq_self_of_prefix (p : α → Bool) (l t : List α)
    (hl : l.dropWhile p = l) (ht : t <+: l) : t.dropWhile p = t := by
  cases t with
  | nil => rfl
  | cons a t2 =>
    rcases ht with ⟨r, hr⟩
    have hla : l = a :: (t2 ++ r) := by rw [← hr]; rfl
    have hpa : ¬ p a = true := by
      intro hpa
      rw [hla, List.dropWhile_cons, if_pos hpa] at hl
      have hlen := ((List.dropWhile_sublist p).length_le : ((t2 ++ r).dropWhile p).length ≤ (t2 ++ r).length)
      rw [hl] at hlen
      simp at hlen
    rw [List.dropWhile_cons, if_neg hpa]

theorem trimChars_idem (cs : List Char) : trimChars (trimChars cs) = trimChars cs := by
  have hX : (cs.dropWhile Char.isWhitespace).dropWhile Char.isWhitespace =
      cs.dropWhile Char.isWhitespace := dropWhile_idem _ cs
  have hpre : trimChars cs <+: cs.dropWhile Char.isWhitespace := by
    rw [← List.reverse_suffix, trimChars, List.reverse_reverse]
    exact List.dropWhile_suffix _
  have h1 : (trimChars cs).dropWhile Char.isWhitespace = trimChars cs :=
    dropWhile_eq_self_of_prefix _ _ _ hX hpre
  rw [trimChars, h1]
  show ((((((cs.dropWhile Char.isWhitespace).reverse).dropWhile Char.isWhitespace).reverse).reverse).dropWhile Char.isWhitespace).reverse = _
  rw [List.reverse_reverse, dropWhile_idem]
  rfl

theorem jsTrim_idem (s : String) : jsTrim (jsTrim s) = jsTrim s := by
  rw [jsTrim, jsTrim]
  exact congrArg String.mk (trimChars_idem s.data)

theorem mem_trimChars (c : Char) (cs : List Char) (h : c ∈ trimChars cs) : c ∈ cs := by
  rw [trimChars, List.mem_reverse] at h
  have h2 := List.Sublist.mem h (List.dropWhile_sublist Char.isWhitespace)
  rw [List.mem_reverse] at h2
  exact List.Sublist.mem h2 (List.dropWhile_sublist Char.isWhitespace)

theorem jsTrim_empty : jsTrim "" = "" := rfl

theorem joinJs_ne_empty (e : String) (es : List String) (he : e ≠ "") :
    joinJs "; " (e :: es) ≠ "" := by
  intro hcontra
  apply he
  rw [string_eq_empty_iff] at hcontra ⊢
  cases es with
  | nil => exact hcontra
  | cons w ws =>
    have h2 : (e ++ "; " ++ joinJs "; " (w :: ws)).data = [] := hcontra
    rw [String.data_append, String.data_append] at h2
    exact (List.append_eq_nil.mp ((List.append_eq_nil.mp h2).1)).1

/-- Core round-trip of the multivalue codec on already-formatted tokens:
if each token trims to something non-empty and contains no semicolon, the
decoder returns exactly the trimmed tokens. -/
theorem parseMultivaluedValue_joinJs (ts : List String)
    (h : ∀ t ∈ ts, jsTrim t ≠ "" ∧ ∀ c ∈ t.data, c ≠ ';') :
    parseMultivaluedValue (joinJs "; " ts) = ts.map jsTrim := by
  cases ts with
  | nil => rfl
  | cons e es =>
    have he : e ≠ "" := by
      intro hcontra
      exact (h e (List.mem_cons_self e es)).1 (by rw [hcontra]; rfl)
    rw [parseMultivaluedValue, if_neg (joinJs_ne_empty e es he)]
    have hsplit : splitJs ';' (joinJs "; " (e :: es)) =
        e :: es.map (fun u => String.mk (' ' :: u.data)) := by
      rw [splitJs, splitCharAux_joinJs es e []
        (fun c hc => (h e (List.mem_cons_self e es)).2 c hc)
        (fun u hu c hc => (h u (List.mem_cons_of_mem e hu)).2 c hc)]
      rw [List.map_cons, List.map_map]
      rfl
    rw [hsplit, List.map_cons, List.map_map]
    have hmap : es.map (jsTrim ∘ fun u => String.mk (' ' :: u.data)) = es.map jsTrim :=
      List.map_congr_left (fun u _ => jsTrim_mk_cons_space u)
    rw [hmap]
    rw [List.filter_eq_self.mpr ?_]
    · exact (List.map_cons jsTrim e es).symm
    · intro a ha
      rcases List.mem_cons.mp ha with h1 | h1
      · subst h1
        simpa using (h e (List.mem_cons_self e es)).1
      · rcases List.mem_map.mp h1 with ⟨u, hu, hau⟩
        subst hau
        simpa using (h u (List.mem_cons_of_mem e hu)).1

/-- C2 counterexample: decode after encode does not reproduce the trimmed,
falsy-filtered input for every sequence of non-empty scalar values — a
value containing the delimiter character is split apart.  For the single
non-empty string value "a;b" the claim predicts the one-element sequence
["a;b"], but the round-trip yields ["a", "b"]. -/
theorem parseMultivaluedValue_format_counterexample :
    parseMultivaluedValue (formatMultivaluedValue env0 (some [JSValue.str "a;b"])) ≠
      ["a;b"] := by decide

/-- C2 amended: for every sequence of scalar values in which each truthy
value has a string form that trims to something non-empty and contains no
semicolon, decode after encode returns exactly the trimmed string forms of
the falsy-filtered values, with order and duplicates preserved. -/
theorem parseMultivaluedValue_formatMultivaluedValue (env : ExternalEnv)
    (vs : List JSValue)
    (h : ∀ v ∈ vs, jsTruthy v = true →
      jsTrim (jsToString env v) ≠ "" ∧ ∀ c ∈ (jsToString env v).data, c ≠ ';') :
    parseMultivaluedValue (formatMultivaluedValue env (some vs)) =
      (vs.filter jsTruthy).map (fun v => jsTrim (jsToString env v)) := by
  have hformat : formatMultivaluedValue env (some vs) =
      joinJs "; " ((vs.filter jsTruthy).map (fun v =>
        match v with
        | JSValue.str s => jsTrim s
        | _ => jsToString env v)) := rfl
  have hhyp : ∀ t ∈ (vs.filter jsTruthy).map (fun v =>
      match v with
      | JSValue.str s => jsTrim s
      | _ => jsToString env v), jsTrim t ≠ "" ∧ ∀ c ∈ t.data, c ≠ ';' := by
    intro t ht
    rcases List.mem_map.mp ht with ⟨v, hvmem, hveq⟩
    rcases List.mem_filter.mp hvmem with ⟨hvs, htruthy⟩
    rcases h v hvs htruthy with ⟨hne, hchars⟩
    subst hveq
    cases v with
    | str s =>
      constructor
      · show jsTrim (jsTrim s) ≠ ""
        rw [jsTrim_idem]
        exact hne
      · intro c hc
        exact hchars c (mem_trimChars c s.data hc)
    | num n => exact ⟨hne, hchars⟩
    | bool b => exact ⟨hne, hchars⟩
    | date t2 => exact ⟨hne, hchars⟩
    | null => exact ⟨hne, hchars⟩
    | undefined => exact ⟨hne, hchars⟩
  rw [hformat, parseMultivaluedValue_joinJs _ hhyp, List.map_map]
  apply List.map_congr_left
  intro v _
  cases v with
  | str s => exact jsTrim_idem s
  | num n => rfl
  | bool b => rfl
  | date t2 => rfl
  | null => rfl
  | undefined => rfl

/-- Witness for the amended C2 on a concrete mixed sequence: falsy entries
are dropped and surviving entries come back trimmed. -/
theorem parseMultivaluedValue_formatMultivaluedValue_witness :
    (∀ v ∈ ([.str " a ", .num 0, .str "b", .bool true, .null] : List JSValue),
      jsTruthy v = true →
        jsTrim (jsToString env0 v) ≠ "" ∧ ∀ c ∈ (jsToString env0 v).data, c ≠ ';') ∧
    parseMultivaluedValue (formatMultivaluedValue env0
        (some [.str " a ", .num 0, .str "b", .bool true, .null])) =
      (([.str " a ", .num 0, .str "b", .bool true, .null] : List JSValue).filter
        jsTruthy).map (fun v => jsTrim (jsToString env0 v)) ∧
    (([.str " a ", .num 0, .str "b", .bool true, .null] : List JSValue).filter
        jsTruthy).map (fun v => jsTrim (jsToString env0 v)) = ["a", "b", "true"] :=
  ⟨by decide,
    parseMultivaluedValue_formatMultivaluedValue env0
      [.str " a ", .num 0, .str "b", .bool true, .null] (by decide),
    by decide⟩

/-- C3: the encoder drops every falsy entry (in particular numeric zero and
boolean false, not only the empty string and null-equivalents), trims
entries that are strings, converts non-string entries to their string
form, joins with the exact two-character delimiter "; ", and yields the
empty string for an empty or absent input sequence. -/
theorem formatMultivaluedValue_spec (env : ExternalEnv) :
    (∀ vs : List JSValue,
      formatMultivaluedValue env (some vs) =
        joinJs MULTIVALUED_DELIMITER ((vs.filter jsTruthy).map (fun v =>
          match v with
          | JSValue.str s => jsTrim s
          | _ => jsToString env v)))
    ∧ MULTIVALUED_DELIMITER = "; "
    ∧ jsTruthy (JSValue.num 0) = false
    ∧ jsTruthy (JSValue.bool false) = false
    ∧ formatMultivaluedValue env none = ""
    ∧ formatMultivaluedValue env (some []) = ""
    ∧ formatMultivaluedValue env
        (some [.num 0, .bool false, .str " x ", .num 5, .null]) = "x; 5" := by
  refine ⟨fun vs => rfl, rfl, rfl, rfl, rfl, rfl, rfl⟩

/-! ### Round-trip helpers -/

theorem formatDatesAndTimes_date (env : ExternalEnv) (dts : Formats) (t : Option Int)
    (dt : String) :
    formatDatesAndTimes env dts .INPUT_FORMAT (.date t) dt =
      .str (env.dtStringify dts (.scalar (.date t)) dt) := by
  simp [formatDatesAndTimes, jsIsDate]

theorem formatDatesAndTimes_nondate (env : ExternalEnv) (dts : Formats)
    (db : DateFormatMode) (v : JSValue) (dt : String) (h : jsIsDate v = false) :
    formatDatesAndTimes env dts db v dt = v := by
  simp [formatDatesAndTimes, h]

theorem getStringifiedValue_valid_date (env : ExternalEnv) (dts : Formats)
    (sdf : DateFormatMode) (s : String) (dt : String) (t : Int)
    (hparsed : parseDateString env dts sdf s dt = .date (some t))
    (hdt : env.datatypeIsDateOrTime dt = true) :
    getStringifiedValue env dts sdf (.scalar (.str s)) dt =
      env.dtStringify dts (.scalar (.date (some t))) dt := by
  simp [getStringifiedValue, hdt, hparsed, jsIsNaN, jsToNumber]

theorem getStringifiedValue_of_nondate (env : ExternalEnv) (dts : Formats)
    (sdf : DateFormatMode) (dt : String) (v : ObjValue)
    (h : env.datatypeIsDateOrTime dt = false) :
    getStringifiedValue env dts sdf v dt = env.dtStringify dts v dt := by
  cases v with
  | scalar sv => cases sv <;> simp [getStringifiedValue, h]
  | array vs => rfl

theorem objectToArrayCell_single (env : ExternalEnv) (dts : Formats)
    (sdf : DateFormatMode) (field : Field) (v : ObjValue)
    (hmv : field.multivalued = false) :
    objectToArrayCell env dts sdf field v =
      getStringifiedValue env dts sdf v field.datatype := by
  rw [objectToArrayCell]
  intro vs hmvt _
  rw [hmv] at hmvt
  exact Bool.noConfusion hmvt

theorem exists_last_binding (obj : List (String × ObjValue)) (k : String)
    (h : ∃ v, (k, v) ∈ obj) :
    ∃ E₁ w E₂, obj = E₁ ++ (k, w) :: E₂ ∧ ∀ u, (k, u) ∉ E₂ := by
  induction obj with
  | nil => rcases h with ⟨v, hv⟩; exact absurd hv (List.not_mem_nil _)
  | cons p rest ih =>
    by_cases hk : ∃ u, (k, u) ∈ rest
    · rcases ih hk with ⟨E₁, w, E₂, heq, hnone⟩
      exact ⟨p :: E₁, w, E₂, by rw [heq]; rfl, hnone⟩
    · rcases h with ⟨v, hv⟩
      rcases List.mem_cons.mp hv with h1 | h1
      · exact ⟨[], v, rest, by rw [h1]; rfl, fun u hu => hk ⟨u, hu⟩⟩
      · exact absurd ⟨v, h1⟩ hk

/-- C1: for a non-multivalued field whose cell is already in canonical
stringified form for its datatype (the external parse succeeds and the
external stringify of the parse result gives the cell back; a date/time
datatype parses to a valid instant and any other datatype parses to a
non-date), converting array→object with `dateBehavior = INPUT_FORMAT` and
then object→array with `serializedDateFormat = INPUT_FORMAT` over the same
format strings restores the original string in that field's slot. -/
theorem dataArrayToObject_dataObjectToArray_roundtrip (env : ExternalEnv)
    (dataArray : List (Option String)) (fields : List Field)
    (pfb : ParseFailureBehavior) (df dtf tf : String)
    (i : Nat) (field : Field) (s : String) (obj : List (String × ObjValue))
    (hnd : (fields.map Field.name).Nodup)
    (hf : fields[i]? = some field)
    (hmv : field.multivalued = false)
    (hc : dataArray[i]? = some (some s))
    (hs : s ≠ "")
    (hok : dataArrayToObject env dataArray fields
        ⟨pfb, .INPUT_FORMAT, df, dtf, tf⟩ = .ok obj)
    (hp : env.dtParse ⟨df, dtf, tf⟩ s field.datatype ≠ .undefined)
    (hcanon : env.dtStringify ⟨df, dtf, tf⟩
        (.scalar (env.dtParse ⟨df, dtf, tf⟩ s field.datatype)) field.datatype = s)
    (hdt1 : env.datatypeIsDateOrTime field.datatype = true →
      ∃ t : Int, env.dtParse ⟨df, dtf, tf⟩ s field.datatype = .date (some t))
    (hdt2 : env.datatypeIsDateOrTime field.datatype = false →
      jsIsDate (env.dtParse ⟨df, dtf, tf⟩ s field.datatype) = false) :
    (dataObjectToArray env obj fields ⟨.INPUT_FORMAT, df, dtf, tf⟩).1[i]? = some s := by
  have hgp : getParsedValue env ⟨df, dtf, tf⟩ pfb .INPUT_FORMAT s field.datatype =
      .ok (formatDatesAndTimes env ⟨df, dtf, tf⟩ .INPUT_FORMAT
        (env.dtParse ⟨df, dtf, tf⟩ s field.datatype) field.datatype) :=
    getParsedValue_parse_defined env ⟨df, dtf, tf⟩ pfb .INPUT_FORMAT s
      field.datatype hp
  -- the stored value and the cell it stringifies back to, by date/non-date case
  have hmain : ∃ v : JSValue,
      getParsedValue env ⟨df, dtf, tf⟩ pfb .INPUT_FORMAT s field.datatype =
        .ok v ∧
      getStringifiedValue env ⟨df, dtf, tf⟩ .INPUT_FORMAT (.scalar v) field.datatype = s := by
    cases hdate : env.datatypeIsDateOrTime field.datatype with
    | true =>
      rcases hdt1 hdate with ⟨t, hpt⟩
      refine ⟨.str s, ?_, ?_⟩
      · rw [hgp, hpt, formatDatesAndTimes_date]
        rw [hpt] at hcanon
        rw [hcanon]
      · have hparsed : parseDateString env ⟨df, dtf, tf⟩ .INPUT_FORMAT s field.datatype =
            .date (some t) := hpt
        rw [getStringifiedValue_valid_date env ⟨df, dtf, tf⟩ .INPUT_FORMAT s
          field.datatype t hparsed hdate]
        rw [hpt] at hcanon
        exact hcanon
    | false =>
      refine ⟨env.dtParse ⟨df, dtf, tf⟩ s field.datatype, ?_, ?_⟩
      · rw [hgp, formatDatesAndTimes_nondate env ⟨df, dtf, tf⟩ .INPUT_FORMAT _ _
          (hdt2 hdate)]
      · rw [getStringifiedValue_of_nondate env ⟨df, dtf, tf⟩ .INPUT_FORMAT
          field.datatype _ hdate]
        exact hcanon
  rcases hmain with ⟨v, hv, hstr⟩
  have hbind := dataArrayToObject_binding_single env dataArray fields
    ⟨pfb, .INPUT_FORMAT, df, dtf, tf⟩ i field s obj v hnd hok hf hmv hc hs hv
  have hmem : (field.name, ObjValue.scalar v) ∈ obj := (hbind (.scalar v)).mpr rfl
  rcases exists_last_binding obj field.name ⟨.scalar v, hmem⟩ with
    ⟨E₁, w, E₂, heq, hnone⟩
  have hw : w = .scalar v := by
    apply hbind w |>.mp
    rw [heq]
    exact List.mem_append_right _ (List.mem_cons_self _ _)
  subst hw
  have hE₂ : ∀ p ∈ E₂, (p : String × ObjValue).1 ≠ field.name := by
    intro p hp2 hp1
    obtain ⟨k2, u⟩ := p
    exact hnone u (by rw [← hp1] at hnone ⊢; exact hp2)
  rw [dataObjectToArray, heq]
  show (objectToArrayLoop env ⟨df, dtf, tf⟩ .INPUT_FORMAT fields
    (E₁ ++ (field.name, ObjValue.scalar v) :: E₂)
    (List.replicate fields.length "")).1[i]? = some s
  rw [objectToArrayLoop_last_write env ⟨df, dtf, tf⟩ .INPUT_FORMAT fields E₁ E₂ _
    i field (.scalar v) hnd hf hE₂ (List.length_replicate fields.length "")]
  rw [objectToArrayCell_single env ⟨df, dtf, tf⟩ .INPUT_FORMAT field (.scalar v) hmv]
  rw [hstr]

/-- Witness for C1: the canonical integer cell "42" survives the
array→object→array round trip under matching `INPUT_FORMAT`
configurations. -/
theorem dataArrayToObject_dataObjectToArray_roundtrip_witness :
    dataArrayToObject env0 [some "42"] [{ name := "amount", datatype := "integer" }]
        ⟨.KEEP_ORIGINAL, .INPUT_FORMAT, "d", "dt", "t"⟩ =
      .ok [("amount", .scalar (.num 42))] ∧
    env0.dtParse ⟨"d", "dt", "t"⟩ "42" "integer" ≠ .undefined ∧
    env0.dtStringify ⟨"d", "dt", "t"⟩
        (.scalar (env0.dtParse ⟨"d", "dt", "t"⟩ "42" "integer")) "integer" = "42" ∧
    (dataObjectToArray env0 [("amount", .scalar (.num 42))]
        [{ name := "amount", datatype := "integer" }]
        ⟨.INPUT_FORMAT, "d", "dt", "t"⟩).1[0]? = some "42" :=
  ⟨by decide, by decide, by decide,
    dataArrayToObject_dataObjectToArray_roundtrip env0 [some "42"]
      [{ name := "amount", datatype := "integer" }] .KEEP_ORIGINAL "d" "dt" "t" 0
      { name := "amount", datatype := "integer" } "42" [("amount", .scalar (.num 42))]
      (by decide) (by decide) (by decide) (by decide) (by decide) (by decide)
      (by decide) (by decide)
      (fun h => absurd h (by decide))
      (fun _ => by decide)⟩

end DataHarmonizer
